import Mathlib

/-!
# The streaming execution driver of `ink` (`main.go`, `log.go`)

A shallow embedding of the command-line driver: the four execution strategies
(file, eval, stdin, REPL line), the listener pair that joins one execution
request, the REPL directive switch and the mode selection of `main`.

What the program does to the outside world is recorded as a list of `Event`s
(the trace) together with the process exit status.  Everything the driver
only consumes is a parameter collected in `World`: the engine behind
`ctx.ExecStream` / `ctx.ValueStream`, the file system behind `os.Open`, the
goroutine scheduler, the text on standard input and the numeric identifiers of
the error kinds.

Go strings are modelled by their sequence of runes (`Text`); the directive
prefixes are ASCII, so byte offsets and rune offsets agree wherever the driver
slices a string.
-/

namespace Ink

/-- A Go string, as the sequence of runes `range` iterates over. -/
abbrev Text := List Char

/-- An error event `Err` as read from a request's error channel: `e.reason`, `e.message`. -/
structure Err where
  reason : Int
  message : String
deriving DecidableEq, Repr

/-- A value event read from `ctx.ValueStream`; the driver only uses `v.String()`. -/
structure Value where
  display : String
deriving DecidableEq, Repr

/-- The method `v.String()`. -/
def Value.String (v : Value) : String := v.display

/-- The error kind constants used by `log.go` and `main.go`.  Their declaration is
outside the two source files, so they are parameters of the model. -/
structure Kinds where
  ErrSyntax : Int
  ErrRuntime : Int
  ErrSystem : Int
  ErrAssert : Int
deriving DecidableEq, Repr

/-- The three threads of one join: the driver thread and the two listener goroutines. -/
inductive Tid
  | main
  | value
  | error
deriving DecidableEq, Repr

/-- Externally visible actions of the driver, in program order. -/
inductive Event
  /-- the call `ctx.ExecStream(lexer, parser, dump)` -/
  | execStream (lexer parser dump : Bool)
  /-- one `input <- char` -/
  | send (c : Char)
  /-- the call `close(input)` -/
  | closeInput
  /-- the call `os.Open(path)` and whether it succeeded -/
  | openFile (path : Text) (ok : Bool)
  /-- a `go func() { ... }()` statement starting a listener -/
  | goListener (t : Tid)
  /-- a `wg.Done()` executed by a listener -/
  | wgDone (t : Tid)
  /-- the return of `wg.Wait()` -/
  | wgWait
  /-- a call of `logInteractive` -/
  | logInteractive (s : String)
  /-- a call of `logSafeErr` (directly or through `logErr`) -/
  | logSafeErr (reason : Int) (msg : String)
  /-- a call of `logDebug` -/
  | logDebug (msg : String)
  /-- a call of `fmt.Printf` with a constant string (prompt, clear screen) -/
  | printf (s : String)
  /-- the call `fmt.Println("ink", VERSION)` -/
  | println (s : String)
  /-- the call `flag.Usage()` -/
  | usage
  /-- the call `ctx.Dump()` -/
  | dump
  /-- the call `reader.ReadString` with the text it returned and whether `err == nil` -/
  | readString (text : Text) (ok : Bool)
deriving DecidableEq, Repr

/-! ## `log.go` -/

def ANSI_RESET : String := "\x1b[0;0m"
def ANSI_BLUE : String := "\x1b[34;22m"
def ANSI_GREEN : String := "\x1b[32;22m"
def ANSI_RED : String := "\x1b[31;22m"
def ANSI_BLUE_BOLD : String := "\x1b[34;1m"
def ANSI_GREEN_BOLD : String := "\x1b[32;1m"
def ANSI_RED_BOLD : String := "\x1b[31;1m"

/-- The label chosen by the `switch reason` of `logSafeErr`. -/
def errStr (k : Kinds) (reason : Int) : String :=
  if reason = k.ErrSyntax then "syntax error"
  else if reason = k.ErrRuntime then "runtime error"
  else if reason = k.ErrSystem then "system error"
  else if reason = k.ErrAssert then "invariant violation"
  else "error"

/-- The line `logSafeErr(reason, msg)` prints. -/
def logSafeErrLine (k : Kinds) (reason : Int) (msg : String) : String :=
  ANSI_RED_BOLD ++ errStr k reason ++ ": " ++ ANSI_RED ++ msg ++ ANSI_RESET

/-- The line written to standard output by a logging event, if it is one. -/
def Event.stdout (k : Kinds) : Event → Option String
  | .logInteractive s => some (ANSI_GREEN ++ s ++ ANSI_RESET ++ "\n")
  | .logSafeErr r m => some (logSafeErrLine k r m ++ "\n")
  | .logDebug m => some (ANSI_BLUE_BOLD ++ "debug: " ++ ANSI_BLUE ++ m ++ ANSI_RESET ++ "\n")
  | .printf s => some s
  | .println s => some (s ++ "\n")
  | _ => none

/-! ## The listener pair of one request (the join) -/

/-- The four places in `main.go` that open a request; each has its own listener pair. -/
inductive Strategy
  /-- `execFile(path)`, lines 76-123 -/
  | file (path : Text)
  /-- the `default` case of the REPL switch, lines 156-184 -/
  | repl
  /-- the `-eval` branch, lines 190-218 -/
  | eval
  /-- the stdin branch, lines 226-259 -/
  | stdin
deriving DecidableEq, Repr

/-- Life cycle of a listener goroutine. -/
inductive LState
  | idle
  | running
  | returned
deriving DecidableEq, Repr

/-- The state of one join: what is still to arrive on the two channels before they are
closed, the two goroutines, the `sync.WaitGroup` counter, and what has happened so far. -/
structure Join where
  /-- value events not yet received from `ctx.ValueStream` -/
  values : List Value
  /-- error events not yet received from `errors` -/
  errors : List Err
  value : LState
  error : LState
  /-- counter of the `sync.WaitGroup` -/
  wg : Int
  /-- `wg.Wait()` has returned -/
  waited : Bool
  /-- `os.Exit(code)` has been called -/
  exited : Option Int
  trace : List Event
deriving DecidableEq, Repr

/-- The state right after `wg.Add(2)`. -/
def Join.start (values : List Value) (errors : List Err) : Join :=
  { values := values, errors := errors, value := .idle, error := .idle,
    wg := 2, waited := false, exited := none, trace := [] }

/-- What the value listener does with one received value. -/
def onValue : Strategy → Value → List Event
  | .repl, v => [.logInteractive v.String]
  | _, _ => []

/-- The message the error listener passes to the logger. -/
def errMessage : Strategy → Err → String
  | .file path, e => "in " ++ String.mk path ++ "\n\t-> " ++ e.message
  | _, e => e.message

/-- Whether the error listener logs with `logErr` (which calls `os.Exit`) rather than
`logSafeErr`. -/
def Strategy.fatal : Strategy → Bool
  | .eval => true
  | .stdin => true
  | _ => false

/-- One step of the driver thread after `wg.Add(2)`: the two `go` statements, then
`wg.Wait()`, which returns only when the counter is zero. -/
def stepMain (j : Join) : Join :=
  if j.exited.isSome then j
  else if j.value = .idle then
    { j with value := .running, trace := j.trace ++ [.goListener .value] }
  else if j.error = .idle then
    { j with error := .running, trace := j.trace ++ [.goListener .error] }
  else if !j.waited && j.wg == 0 then
    { j with waited := true, trace := j.trace ++ [.wgWait] }
  else j

/-- One step of the value listener: one receive of `range ctx.ValueStream`. -/
def stepValue (s : Strategy) (j : Join) : Join :=
  if j.exited.isSome then j
  else if j.value = .running then
    match j.values with
    | v :: vs => { j with values := vs, trace := j.trace ++ onValue s v }
    | [] => { j with value := .returned, wg := j.wg - 1, trace := j.trace ++ [.wgDone .value] }
  else j

/-- One step of the error listener: one receive of `range errors`. -/
def stepError (s : Strategy) (j : Join) : Join :=
  if j.exited.isSome then j
  else if j.error = .running then
    match j.errors with
    | e :: es =>
      if s.fatal then
        { j with errors := es, exited := some e.reason,
                 trace := j.trace ++ [.logSafeErr e.reason (errMessage s e)] }
      else
        { j with errors := es, error := .returned, wg := j.wg - 1,
                 trace := j.trace ++ [.logSafeErr e.reason (errMessage s e), .wgDone .error] }
    | [] => { j with error := .returned, wg := j.wg - 1, trace := j.trace ++ [.wgDone .error] }
  else j

/-- One step of the chosen thread; a thread that cannot move leaves the state alone. -/
def step (s : Strategy) (t : Tid) (j : Join) : Join :=
  match t with
  | .main => stepMain j
  | .value => stepValue s j
  | .error => stepError s j

/-- Run the threads in the order a schedule names them. -/
def runSched (s : Strategy) (sched : List Tid) (j : Join) : Join :=
  sched.foldl (fun j t => step s t j) j

/-- Let every thread finish: the driver spawns, the value listener receives until the
stream is closed, the error listener takes its receive, the driver's wait returns. -/
def drain (s : Strategy) (j : Join) : Join :=
  let j1 := stepMain (stepMain j)
  let j2 := (stepValue s)^[j1.values.length + 1] j1
  stepMain (stepError s j2)

/-- A whole join: an arbitrary interleaving first, then every thread runs to its end. -/
def join (s : Strategy) (sched : List Tid) (values : List Value) (errors : List Err) : Join :=
  drain s (runSched s sched (Join.start values errors))

/-! ## The environment of the driver -/

/-- What the engine delivers for one request: the events each listener's `range` loop
receives before its channel is closed. -/
structure Response where
  values : List Value
  errors : List Err
deriving DecidableEq, Repr

/-- Everything outside `main.go` and `log.go` that a run depends on. -/
structure World where
  kinds : Kinds
  /-- `os.Open(path)` followed by the `bufio.Scanner` loop: the successive
  `scanner.Text()` results, or the error of `os.Open` -/
  openFile : Text → Except String (List Text)
  /-- the engine: what the listeners of the `n`-th request (counted from 0) receive
  once the given text has been fed and the input closed -/
  engine : Nat → Text → Response
  /-- the goroutine scheduler: the interleaving of the `n`-th request's join -/
  sched : Nat → List Tid
  /-- the runes on standard input -/
  stdin : Text
  /-- `err.Error()` of a failed `reader.ReadString` -/
  readErr : String

/-- The values of the command-line flags after `flag.Parse()`. -/
structure Flags where
  verbose : Bool
  debugLexer : Bool
  debugParser : Bool
  dump : Bool
  version : Bool
  help : Bool
  repl : Bool
  eval : Text
  files : List Text
deriving DecidableEq, Repr

/-- What the command line supplies: `-eval` may be absent, `-input` may repeat. -/
structure Args where
  verbose : Bool
  debugLexer : Bool
  debugParser : Bool
  dump : Bool
  version : Bool
  help : Bool
  repl : Bool
  eval : Option Text
  files : List Text
deriving DecidableEq, Repr

/-- The flag definitions of lines 46-60: boolean flags default to `false`, `-eval`
defaults to the empty string, every `-input` is appended by `inkFiles.Set`. -/
def Args.parse (a : Args) : Flags :=
  { verbose := a.verbose, debugLexer := a.debugLexer, debugParser := a.debugParser,
    dump := a.dump, version := a.version, help := a.help, repl := a.repl,
    eval := a.eval.getD [], files := a.files }

/-- The progress of the driver thread. -/
structure Driver where
  trace : List Event
  /-- number of calls of `ctx.ExecStream` so far -/
  requests : Nat
  /-- the status the process has exited with, if it has -/
  exited : Option Int
deriving DecidableEq, Repr

/-- The result of a run of the program. -/
structure Run where
  trace : List Event
  status : Int
deriving DecidableEq, Repr

def VERSION : String := "0.1.0"

/-- Append events to the driver's trace. -/
def Driver.emit (d : Driver) (es : List Event) : Driver :=
  { d with trace := d.trace ++ es }

/-- The call `ctx.ExecStream(*debugLexer || *verbose, *debugParser || *verbose,
*dump || *verbose)`. -/
def openRequest (f : Flags) (d : Driver) : Driver :=
  { d with
    trace := d.trace ++
      [.execStream (f.debugLexer || f.verbose) (f.debugParser || f.verbose) (f.dump || f.verbose)],
    requests := d.requests + 1 }

/-- The part the four strategies share: feed every rune, `close(input)`, `wg.Add(2)`,
start the two listeners and `wg.Wait()`.  `n` is the number of the request. -/
def feedAndJoin (w : World) (s : Strategy) (n : Nat) (text : Text) (d : Driver) : Driver :=
  let r := w.engine n text
  let j := join s (w.sched n) r.values r.errors
  { d with trace := d.trace ++ text.map Event.send ++ [.closeInput] ++ j.trace,
           exited := j.exited }

/-- The closure `execFile` (lines 76-123).  The second component tells whether the
returned `error` is non-nil.  The deferred `file.Close()` is not recorded. -/
def execFile (w : World) (f : Flags) (path : Text) (d : Driver) : Driver × Bool :=
  let n := d.requests
  let d1 := openRequest f d
  match w.openFile path with
  | .error err =>
    (d1.emit [.openFile path false,
              .logSafeErr w.kinds.ErrSystem
                ("could not open " ++ String.mk path ++ " for execution:\n\t-> " ++ err),
              .closeInput], true)
  | .ok lines =>
    (feedAndJoin w (.file path) n (lines.map (fun l => l ++ ['\n'])).flatten
      (d1.emit [.openFile path true]), false)

/-- `strings.HasPrefix(text, pre)`. -/
def hasPrefix (text pre : Text) : Bool := pre.isPrefixOf text

/-- `strings.Trim(s, cutset)`: drop leading and trailing runes contained in the cutset. -/
def trim (s cutset : Text) : Text :=
  (s.dropWhile (fun c => cutset.contains c)).rdropWhile (fun c => cutset.contains c)

/-- The slice expression `text[n:]`; it panics when `n` exceeds the length. -/
def sliceFrom (text : Text) (n : Nat) : Option Text :=
  if n ≤ text.length then some (text.drop n) else none

def dumpDirective : Text := ['@', 'd', 'u', 'm', 'p']
def clearDirective : Text := ['@', 'c', 'l', 'e', 'a', 'r']
def exitDirective : Text := ['@', 'e', 'x', 'i', 't']
def loadDirective : Text := ['@', 'l', 'o', 'a', 'd', ' ']

/-- The exit status of a Go program that dies of a run-time panic. -/
def panicStatus : Int := 2

/-- The `switch` of the REPL loop (lines 139-185) on a line that was read without
error.  The second component is the new value of `shouldExit`. -/
def dispatch (w : World) (f : Flags) (text : Text) (d : Driver) : Driver × Bool :=
  if hasPrefix text dumpDirective then (d.emit [.dump], false)
  else if hasPrefix text clearDirective then (d.emit [.printf "\x1b[2J\x1b[H"], false)
  else if hasPrefix text exitDirective then (d, true)
  else if hasPrefix text loadDirective then
    match sliceFrom text 5 with
    | none => ({ d with exited := some panicStatus }, false)
    | some rest =>
      let path := trim rest [' ', '\t', '\n']
      let r := execFile w f path d
      if r.2 then (r.1, false)
      else (r.1.emit [.logDebug ("loaded file:\n\t-> " ++ String.mk path)], false)
  else
    (feedAndJoin w .repl d.requests text (openRequest f d), false)

/-- The prompt printed at the top of the REPL loop. -/
def prompt : Event := .printf (ANSI_GREEN_BOLD ++ "> " ++ ANSI_RESET)

/-- The REPL loop (lines 129-188) over what `reader.ReadString` returns: the lines
read without error, then the text returned together with the read error. -/
def replLoop (w : World) (f : Flags) : List Text → Text → Driver → Driver
  | [], last, d =>
    -- `logErrf` prints and calls `os.Exit(ErrSystem)`: the switch is not reached
    { d with
      trace := d.trace ++
        [prompt, .readString last false,
         .logSafeErr w.kinds.ErrSystem ("unexpected stop to input:\n\t-> " ++ w.readErr)],
      exited := some w.kinds.ErrSystem }
  | text :: rest, last, d =>
    let r := dispatch w f text (d.emit [prompt, .readString text true])
    if r.1.exited.isSome then r.1
    else if r.2 then { r.1 with exited := some 0 }
    else replLoop w f rest last r.1

/-- What successive calls of `reader.ReadString` return on a finite input: the
lines, each up to and including its newline, and the remainder that is returned
together with `io.EOF`. -/
def readLines : Text → List Text × Text
  | [] => ([], [])
  | c :: cs =>
    let r := readLines cs
    if c = '\n' then ([c] :: r.1, r.2)
    else match r.1 with
      | [] => ([], c :: r.2)
      | l :: ls => ((c :: l) :: ls, r.2)

/-- The loop over the `-input` paths (lines 221-223). -/
def runFiles (w : World) (f : Flags) : List Text → Driver → Driver
  | [], d => d
  | path :: rest, d =>
    let d1 := (execFile w f path d).1
    if d1.exited.isSome then d1 else runFiles w f rest d1

/-- The branch of `main` that runs. -/
inductive Mode
  | version
  | help
  | repl
  | eval
  | files
  | stdin
deriving DecidableEq, Repr

/-- The `if` chains of lines 63-69 and 125-224. -/
def mode (f : Flags) : Mode :=
  if f.version then .version
  else if f.help then .help
  else if f.repl then .repl
  else if f.eval ≠ [] then .eval
  else if f.files.length > 0 then .files
  else .stdin

/-- The driver before the first request. -/
def Driver.init : Driver := { trace := [], requests := 0, exited := none }

/-- The end of the process: `os.Exit` if it was called, status 0 when `main` returns. -/
def Driver.finish (d : Driver) : Run :=
  { trace := d.trace, status := d.exited.getD 0 }

/-- The function `main`. -/
def main (w : World) (f : Flags) : Run :=
  match mode f with
  | .version => { trace := [.println ("ink " ++ VERSION)], status := 0 }
  | .help => { trace := [.usage], status := 0 }
  | .repl =>
    (replLoop w f (readLines w.stdin).1 (readLines w.stdin).2 Driver.init).finish
  | .eval => (feedAndJoin w .eval 0 f.eval (openRequest f Driver.init)).finish
  | .files => (runFiles w f f.files Driver.init).finish
  | .stdin => (feedAndJoin w .stdin 0 w.stdin (openRequest f Driver.init)).finish

/-! ## Observations on traces -/

/-- Number of `wg.Done()` calls a listener has made. -/
def signals (t : Tid) (tr : List Event) : Nat := tr.count (.wgDone t)

/-- The error reports in a trace: reason and message of every `logSafeErr` call. -/
def reports (tr : List Event) : List (Int × String) :=
  tr.filterMap (fun ev => match ev with
    | .logSafeErr r m => some (r, m)
    | _ => none)

/-- The texts written by `logInteractive`, in order. -/
def shown (tr : List Event) : List String :=
  tr.filterMap (fun ev => match ev with
    | .logInteractive s => some s
    | _ => none)

/-- The events a join can emit. -/
def Event.inJoin : Event → Bool
  | .goListener _ => true
  | .wgDone _ => true
  | .wgWait => true
  | .logInteractive _ => true
  | .logSafeErr _ _ => true
  | _ => false

/-- What a listener still owes the wait group. -/
def LState.pending : LState → Int
  | .returned => 0
  | _ => 1

/-- What the value listener of a strategy writes for a list of values. -/
def shownOf (s : Strategy) (vs : List Value) : List String :=
  shown (vs.flatMap (onValue s))

/-- The invariant of a join that started with the given channel contents. -/
structure Inv (s : Strategy) (vals : List Value) (errs : List Err) (j : Join) : Prop where
  counter : j.wg = j.value.pending + j.error.pending
  valueSignals : signals .value j.trace = if j.value = .returned then 1 else 0
  errorSignals : signals .error j.trace = if j.error = .returned then 1 else 0
  valueStarted : (.goListener .value ∈ j.trace) ↔ j.value ≠ .idle
  errorStarted : (.goListener .error ∈ j.trace) ↔ j.error ≠ .idle
  output : shown j.trace ++ shownOf s j.values = shownOf s vals
  consumed : j.value = .returned → j.values = []
  waited : j.waited = true → j.wg = 0
  events : ∀ ev ∈ j.trace, ev.inJoin = true
  handled :
    (j.errors = errs ∧ reports j.trace = [] ∧ j.exited = none ∧
      (j.error = .returned → errs = [])) ∨
    (∃ e, errs = e :: j.errors ∧ reports j.trace = [(e.reason, errMessage s e)] ∧
      if s.fatal then j.exited = some e.reason ∧ j.error = .running
      else j.exited = none ∧ j.error = .returned)

/-- A join has ended: the process has exited, or both listeners have returned and
`wg.Wait()` has returned. -/
def Join.Ended (j : Join) : Prop :=
  j.exited.isSome = true ∨ (j.value = .returned ∧ j.error = .returned ∧ j.waited = true)

/-- The paths handed to `os.Open`, in order. -/
def attempted (tr : List Event) : List Text :=
  tr.filterMap (fun ev => match ev with
    | .openFile p _ => some p
    | _ => none)

/-- The results of `reader.ReadString`, in order. -/
def reads (tr : List Event) : List (Text × Bool) :=
  tr.filterMap (fun ev => match ev with
    | .readString t ok => some (t, ok)
    | _ => none)

/-- The runes sent on input channels, in order. -/
def sent (tr : List Event) : Text :=
  tr.filterMap (fun ev => match ev with
    | .send c => some c
    | _ => none)

def Event.isExecStream : Event → Bool
  | .execStream _ _ _ => true
  | _ => false

def Event.isGoListener : Event → Bool
  | .goListener _ => true
  | _ => false

def Event.isSend : Event → Bool
  | .send _ => true
  | _ => false

def Event.isOpenFailure : Event → Bool
  | .openFile _ false => true
  | _ => false

/-- Number of calls of `ctx.ExecStream` in a trace. -/
def opened (tr : List Event) : Nat := tr.countP Event.isExecStream

/-- A trace cut at its calls of `ctx.ExecStream`: the stretches between two consecutive
calls, and the stretch since the last call if there was one. -/
structure Scan where
  gaps : List (List Event)
  cur : Option (List Event)
deriving DecidableEq, Repr

def Scan.step (s : Scan) (e : Event) : Scan :=
  if e.isExecStream then { gaps := s.gaps ++ s.cur.toList, cur := some [] }
  else { s with cur := s.cur.map (fun c => c ++ [e]) }

def scan (tr : List Event) : Scan := tr.foldl Scan.step { gaps := [], cur := none }

/-- The stretches of a trace between two consecutive calls of `ctx.ExecStream`. -/
def gaps (tr : List Event) : List (List Event) := (scan tr).gaps

/-- Both listeners were started and both have signalled completion. -/
def Joined (g : List Event) : Bool :=
  g.contains (.goListener .value) && g.contains (.goListener .error) &&
    g.contains (.wgDone .value) && g.contains (.wgDone .error)

/-- The request was given up after a failed `os.Open`: its input was closed, nothing was
sent to it and no listener was started. -/
def Abandoned (g : List Event) : Bool :=
  g.any Event.isOpenFailure && g.contains .closeInput &&
    !g.any Event.isGoListener && !g.any Event.isSend

/-- The error reports file mode owes for a list of paths, the first of which is given
to request number `n`: the `os.Open` failure, or the first error event of the engine. -/
def fileReports (w : World) : Nat → List Text → List (Int × String)
  | _, [] => []
  | n, path :: rest =>
    (match w.openFile path with
      | .error err =>
        [(w.kinds.ErrSystem,
          "could not open " ++ String.mk path ++ " for execution:\n\t-> " ++ err)]
      | .ok lines =>
        ((w.engine n (lines.map (fun l => l ++ ['\n'])).flatten).errors.head?.map
          (fun e => (e.reason, "in " ++ String.mk path ++ "\n\t-> " ++ e.message))).toList) ++
    fileReports w (n + 1) rest

/-! ## Example runs -/

/-- The error kind identifiers used in the examples. -/
def exampleKinds : Kinds := { ErrSyntax := 1, ErrRuntime := 2, ErrSystem := 40, ErrAssert := 100 }

/-- An engine that answers every request with one value and two errors. -/
def exampleEngine (_ : Nat) (_ : Text) : Response :=
  { values := [{ display := "2" }],
    errors := [{ reason := 1, message := "unmatched" }, { reason := 2, message := "late" }] }

/-- A world in which only the file `a` exists. -/
def exampleWorld : World where
  kinds := exampleKinds
  openFile := fun p => if p = ['a'] then .ok [['x']] else .error "no such file"
  engine := exampleEngine
  sched := fun _ => []
  stdin := ['1', '\n']
  readErr := "EOF"

/-- The flags of `ink -input missing -input a`. -/
def filesFlags : Flags :=
  { verbose := false, debugLexer := false, debugParser := false, dump := false,
    version := false, help := false, repl := false, eval := [], files := [['m'], ['a']] }

/-- The flags of `ink -repl`. -/
def replFlags : Flags :=
  { verbose := false, debugLexer := false, debugParser := false, dump := false,
    version := false, help := false, repl := true, eval := [], files := [] }

/-- A world whose engine answers every request with the value `2` and no error. -/
def sumWorld : World where
  kinds := exampleKinds
  openFile := fun _ => .error "no such file"
  engine := fun _ _ => { values := [{ display := "2" }], errors := [] }
  sched := fun _ => []
  stdin := []
  readErr := "EOF"

/-- The flags of `ink -eval "1+1"`. -/
def sumFlags : Flags :=
  { verbose := false, debugLexer := false, debugParser := false, dump := false,
    version := false, help := false, repl := false, eval := ['1', '+', '1'], files := [] }

/-- The lines the REPL reads before it stops: all of them up to and including the first
one that starts with `@exit`. -/
def untilExit : List Text → List Text
  | [] => []
  | t :: ts => if hasPrefix t exitDirective then [t] else t :: untilExit ts

/-- A world whose standard input holds `@exit 1` and a further line. -/
def exitWorld : World where
  kinds := exampleKinds
  openFile := fun _ => .error "no such file"
  engine := exampleEngine
  sched := fun _ => []
  stdin := ['@', 'e', 'x', 'i', 't', ' ', '1', '\n', 'x', '\n']
  readErr := "EOF"

/-- The mode selection as the specification words it: REPL if `-repl` is set, otherwise
eval if an `-eval` string was supplied, otherwise file mode if at least one `-input`
path was given, otherwise stdin. -/
def claimedMode (a : Args) : Mode :=
  if a.version then .version
  else if a.help then .help
  else if a.repl then .repl
  else if a.eval.isSome then .eval
  else if a.files ≠ [] then .files
  else .stdin

/-- The command line `ink -eval ""`. -/
def emptyEvalArgs : Args :=
  { verbose := false, debugLexer := false, debugParser := false, dump := false,
    version := false, help := false, repl := false, eval := some [], files := [] }

/-- The command line `ink -repl -eval "(" -input a`. -/
def allArgs : Args :=
  { verbose := false, debugLexer := false, debugParser := false, dump := false,
    version := false, help := false, repl := true, eval := some ['('], files := [['a']] }

/-- A stretch between two calls of `ctx.ExecStream` is settled when the request that
opened it was joined, or was given up after a failed `os.Open`. -/
def Settled (g : List Event) : Prop := Joined g = true ∨ Abandoned g = true

/-- The driver invariant behind single-flight access: every closed stretch is settled,
and so is the current one whenever the driver is still running. -/
def Good (d : Driver) : Prop :=
  (∀ g ∈ (scan d.trace).gaps, Settled g) ∧
  (d.exited = none → ∀ c, (scan d.trace).cur = some c → Settled c)

/-- Events that neither open a request, nor start a listener, nor feed a request. -/
def Event.isQuiet (e : Event) : Bool :=
  !e.isExecStream && !e.isGoListener && !e.isSend

/-! # Theorems -/

theorem LState.pending_nonneg (l : LState) : 0 ≤ l.pending := by
  cases l <;> decide

theorem signals_append (t : Tid) (a b : List Event) :
    signals t (a ++ b) = signals t a + signals t b := by
  simp [signals]

theorem reports_append (a b : List Event) : reports (a ++ b) = reports a ++ reports b := by
  simp [reports]

theorem shown_append (a b : List Event) : shown (a ++ b) = shown a ++ shown b := by
  simp [shown]

theorem shownOf_cons (s : Strategy) (v : Value) (vs : List Value) :
    shownOf s (v :: vs) = shown (onValue s v) ++ shownOf s vs := by
  simp [shownOf, shown_append]

theorem shownOf_repl (vs : List Value) : shownOf .repl vs = vs.map Value.String := by
  induction vs with
  | nil => rfl
  | cons v vs ih => rw [shownOf_cons, ih]; rfl

theorem shownOf_not_repl (s : Strategy) (h : s ≠ .repl) (vs : List Value) : shownOf s vs = [] := by
  induction vs with
  | nil => rfl
  | cons v vs ih =>
    rw [shownOf_cons, ih]
    cases s <;> first | rfl | exact absurd rfl h

theorem mem_onValue {s : Strategy} {v : Value} {ev : Event} (h : ev ∈ onValue s v) :
    ev = .logInteractive v.String := by
  cases s <;> simp [onValue] at h
  exact h

theorem signals_onValue (t : Tid) (s : Strategy) (v : Value) : signals t (onValue s v) = 0 := by
  cases s <;> simp [onValue, signals]

theorem reports_onValue (s : Strategy) (v : Value) : reports (onValue s v) = [] := by
  cases s <;> simp [onValue, reports]

theorem inv_start (s : Strategy) (vals : List Value) (errs : List Err) :
    Inv s vals errs (Join.start vals errs) := by
  refine ⟨rfl, rfl, rfl, ?_, ?_, ?_, ?_, ?_, ?_, ?_⟩ <;> simp [Join.start, shown, reports]

theorem inv_stepMain {s : Strategy} {vals : List Value} {errs : List Err} {j : Join}
    (h : Inv s vals errs j) : Inv s vals errs (stepMain j) := by
  obtain ⟨h1, h2, h3, h4, h5, h6, h7, h8, h9, h10⟩ := h
  unfold Ink.stepMain
  split_ifs with c1 c2 c3 c4
  · exact ⟨h1, h2, h3, h4, h5, h6, h7, h8, h9, h10⟩
  · refine ⟨?_, ?_, ?_, ?_, ?_, ?_, ?_, ?_, ?_, ?_⟩
    all_goals simp_all [signals_append, reports_append, shown_append, LState.pending, signals,
      reports, shown]
    rintro ev (h | rfl)
    · exact h9 ev h
    · rfl
  · refine ⟨?_, ?_, ?_, ?_, ?_, ?_, ?_, ?_, ?_, ?_⟩
    all_goals simp_all [signals_append, reports_append, shown_append, LState.pending, signals,
      reports, shown]
    rintro ev (h | rfl)
    · exact h9 ev h
    · rfl
  · refine ⟨?_, ?_, ?_, ?_, ?_, ?_, ?_, ?_, ?_, ?_⟩
    all_goals simp_all [signals_append, reports_append, shown_append, LState.pending, signals,
      reports, shown]
    rintro ev (h | rfl)
    · exact h9 ev h
    · rfl
  · exact ⟨h1, h2, h3, h4, h5, h6, h7, h8, h9, h10⟩

theorem inv_stepValue {s : Strategy} {vals : List Value} {errs : List Err} {j : Join}
    (h : Inv s vals errs j) : Inv s vals errs (stepValue s j) := by
  obtain ⟨h1, h2, h3, h4, h5, h6, h7, h8, h9, h10⟩ := h
  unfold Ink.stepValue
  split_ifs with c1 c2
  · exact ⟨h1, h2, h3, h4, h5, h6, h7, h8, h9, h10⟩
  · split
    · rename_i v vs hv
      have hm : ∀ t, Event.goListener t ∉ onValue s v := fun t hmem => by
        have := mem_onValue hmem
        cases this
      refine ⟨h1, ?_, ?_, ?_, ?_, ?_, ?_, h8, ?_, ?_⟩
      · simpa [signals_append, signals_onValue] using h2
      · simpa [signals_append, signals_onValue] using h3
      · simpa [hm] using h4
      · simpa [hm] using h5
      · simp only [shown_append, List.append_assoc, ← shownOf_cons, ← hv]
        exact h6
      · intro hr
        simp [c2] at hr
      · intro ev hev
        rcases List.mem_append.1 hev with h | h
        · exact h9 ev h
        · rw [mem_onValue h]; rfl
      · simpa [reports_append, reports_onValue] using h10
    · rename_i hv
      refine ⟨?_, ?_, ?_, ?_, ?_, ?_, ?_, ?_, ?_, ?_⟩
      · simp [h1, LState.pending, c2]
      · rw [signals_append, h2]
        simp [c2, signals]
      · rw [signals_append, h3]
        simp [signals]
      · simpa [c2] using h4
      · simpa using h5
      · simpa [shown_append, shown, hv] using h6
      · intro _; exact hv
      · intro hw
        have h0 := h8 hw
        have hp := LState.pending_nonneg j.error
        have hv1 : j.value.pending = 1 := by rw [c2]; rfl
        show j.wg - 1 = 0
        omega
      · intro ev hev
        rcases List.mem_append.1 hev with h | h
        · exact h9 ev h
        · simp at h; subst h; rfl
      · simpa [reports_append, reports] using h10
  · exact ⟨h1, h2, h3, h4, h5, h6, h7, h8, h9, h10⟩

theorem inv_stepError {s : Strategy} {vals : List Value} {errs : List Err} {j : Join}
    (h : Inv s vals errs j) : Inv s vals errs (stepError s j) := by
  obtain ⟨h1, h2, h3, h4, h5, h6, h7, h8, h9, h10⟩ := h
  unfold Ink.stepError
  have hp := LState.pending_nonneg j.value
  have hr0 : LState.returned.pending = 0 := rfl
  by_cases c1 : j.exited.isSome = true
  · rw [if_pos c1]
    exact ⟨h1, h2, h3, h4, h5, h6, h7, h8, h9, h10⟩
  rw [if_neg c1]
  by_cases c2 : j.error = .running
  swap
  · rw [if_neg c2]
    exact ⟨h1, h2, h3, h4, h5, h6, h7, h8, h9, h10⟩
  rw [if_pos c2]
  have he1 : j.error.pending = 1 := by rw [c2]; rfl
  have hfresh : j.errors = errs ∧ reports j.trace = [] := by
    rcases h10 with ⟨a, b, _, _⟩ | ⟨e, _, _, hx⟩
    · exact ⟨a, b⟩
    · by_cases hf : s.fatal = true
      · rw [if_pos hf] at hx
        simp [hx.1] at c1
      · rw [if_neg hf] at hx
        simp [hx.2] at c2
  split
  · rename_i e es he
    by_cases hf : s.fatal = true
    · rw [if_pos hf]
      refine ⟨h1, ?_, ?_, ?_, ?_, ?_, h7, h8, ?_, ?_⟩
      · rw [signals_append, h2]; simp [signals]
      · rw [signals_append, h3]; simp [signals]
      · simpa using h4
      · simpa using h5
      · simpa [shown_append, shown] using h6
      · intro ev hev
        rcases List.mem_append.1 hev with h | h
        · exact h9 ev h
        · simp at h; subst h; rfl
      · right
        refine ⟨e, ?_, ?_, ?_⟩
        · rw [← hfresh.1, he]
        · rw [reports_append, hfresh.2]; rfl
        · simp [hf, c2]
    · rw [if_neg hf]
      refine ⟨?_, ?_, ?_, ?_, ?_, ?_, h7, ?_, ?_, ?_⟩
      · show j.wg - 1 = j.value.pending + LState.returned.pending
        omega
      · rw [signals_append, h2]; simp [signals]
      · rw [signals_append, h3]; simp [signals, c2]
      · simpa using h4
      · simpa [c2] using h5
      · simpa [shown_append, shown] using h6
      · intro hw
        have h0 := h8 hw
        show j.wg - 1 = 0
        omega
      · intro ev hev
        rcases List.mem_append.1 hev with h | h
        · exact h9 ev h
        · simp at h; rcases h with rfl | rfl <;> rfl
      · right
        refine ⟨e, ?_, ?_, ?_⟩
        · rw [← hfresh.1, he]
        · rw [reports_append, hfresh.2]; rfl
        · simpa [hf] using c1
  · rename_i he
    refine ⟨?_, ?_, ?_, ?_, ?_, ?_, h7, ?_, ?_, ?_⟩
    · show j.wg - 1 = j.value.pending + LState.returned.pending
      omega
    · rw [signals_append, h2]; simp [signals]
    · rw [signals_append, h3]; simp [signals, c2]
    · simpa using h4
    · simpa [c2] using h5
    · simpa [shown_append, shown] using h6
    · intro hw
      have h0 := h8 hw
      show j.wg - 1 = 0
      omega
    · intro ev hev
      rcases List.mem_append.1 hev with h | h
      · exact h9 ev h
      · simp at h; subst h; rfl
    · left
      refine ⟨hfresh.1, ?_, ?_, ?_⟩
      · rw [reports_append, hfresh.2]; rfl
      · simpa using c1
      · intro _; rw [← hfresh.1, he]

theorem inv_step {s : Strategy} {vals : List Value} {errs : List Err} {j : Join}
    (h : Inv s vals errs j) (t : Tid) : Inv s vals errs (step s t j) := by
  cases t
  · exact inv_stepMain h
  · exact inv_stepValue h
  · exact inv_stepError h

theorem inv_runSched {s : Strategy} {vals : List Value} {errs : List Err}
    (sched : List Tid) {j : Join} (h : Inv s vals errs j) :
    Inv s vals errs (runSched s sched j) := by
  induction sched generalizing j with
  | nil => exact h
  | cons t ts ih => exact ih (inv_step h t)

theorem inv_iterate {s : Strategy} {vals : List Value} {errs : List Err}
    (n : Nat) {j : Join} (h : Inv s vals errs j) :
    Inv s vals errs ((stepValue s)^[n] j) := by
  induction n generalizing j with
  | zero => exact h
  | succ n ih => exact ih (inv_stepValue h)

theorem inv_drain {s : Strategy} {vals : List Value} {errs : List Err} {j : Join}
    (h : Inv s vals errs j) : Inv s vals errs (drain s j) :=
  inv_stepMain (inv_stepError (inv_iterate _ (inv_stepMain (inv_stepMain h))))

theorem inv_join (s : Strategy) (sched : List Tid) (vals : List Value) (errs : List Err) :
    Inv s vals errs (join s sched vals errs) :=
  inv_drain (inv_runSched sched (inv_start s vals errs))

/-! ## Every join comes to an end -/

theorem stepMain_exited (j : Join) : (stepMain j).exited = j.exited := by
  unfold stepMain
  split_ifs <;> rfl

theorem stepValue_exited (s : Strategy) (j : Join) : (stepValue s j).exited = j.exited := by
  unfold stepValue
  split_ifs
  · rfl
  · split <;> rfl
  · rfl

theorem stepValue_error (s : Strategy) (j : Join) : (stepValue s j).error = j.error := by
  unfold stepValue
  split_ifs
  · rfl
  · split <;> rfl
  · rfl

theorem stepError_value (s : Strategy) (j : Join) : (stepError s j).value = j.value := by
  unfold stepError
  split_ifs <;> first | rfl | (split <;> rfl)

theorem stepMain_started (j : Join) (h : j.exited = none) :
    (stepMain (stepMain j)).value ≠ .idle ∧ (stepMain (stepMain j)).error ≠ .idle := by
  unfold stepMain
  cases hv : j.value <;> cases he : j.error <;> simp [h, hv, he] <;> split_ifs <;> simp [hv, he]

theorem iterate_stepValue_frame (s : Strategy) (n : Nat) (j : Join) :
    ((stepValue s)^[n] j).exited = j.exited ∧ ((stepValue s)^[n] j).error = j.error := by
  induction n generalizing j with
  | zero => exact ⟨rfl, rfl⟩
  | succ n ih =>
    rw [Function.iterate_succ_apply]
    exact ⟨(ih _).1.trans (stepValue_exited s j), (ih _).2.trans (stepValue_error s j)⟩

theorem stepValue_returned (s : Strategy) (j : Join) (h : j.value = .returned) :
    (stepValue s j).value = .returned := by
  unfold stepValue
  simp [h]

theorem iterate_stepValue_fixed (s : Strategy) (n : Nat) (j : Join) (h : j.value = .returned) :
    ((stepValue s)^[n] j).value = .returned := by
  induction n generalizing j with
  | zero => exact h
  | succ n ih =>
    rw [Function.iterate_succ_apply]
    exact ih _ (stepValue_returned s j h)

theorem iterate_stepValue_returned (s : Strategy) (n : Nat) (j : Join)
    (hx : j.exited = none) (hv : j.value ≠ .idle) (hn : j.values.length < n) :
    ((stepValue s)^[n] j).value = .returned := by
  induction n generalizing j with
  | zero => omega
  | succ n ih =>
    rw [Function.iterate_succ_apply]
    cases hs : j.value with
    | idle => exact absurd hs hv
    | returned => exact iterate_stepValue_fixed s n _ (stepValue_returned s j hs)
    | running =>
      cases hl : j.values with
      | nil =>
        apply iterate_stepValue_fixed
        simp [stepValue, hx, hs, hl]
      | cons v vs =>
        apply ih
        · rw [stepValue_exited]; exact hx
        · simp [stepValue, hx, hs, hl]
        · simp [stepValue, hx, hs, hl] at hn ⊢
          omega

theorem stepError_of_exited (s : Strategy) (j : Join) (h : j.exited.isSome = true) :
    stepError s j = j := by
  unfold stepError
  rw [if_pos h]

theorem stepError_ended (s : Strategy) (j : Join) (hx : j.exited = none) (he : j.error ≠ .idle) :
    (stepError s j).exited.isSome = true ∨ (stepError s j).error = .returned := by
  unfold stepError
  cases hs : j.error with
  | idle => exact absurd hs he
  | returned => right; simp [hx, hs]
  | running =>
    simp only [hx, Option.isSome_none, Bool.false_eq_true, if_false, if_true]
    split
    · split_ifs
      · left; rfl
      · right; rfl
    · right; rfl

theorem stepMain_waits {s : Strategy} {vals : List Value} {errs : List Err} {j : Join}
    (h : Inv s vals errs j) (hx : j.exited = none) (hv : j.value = .returned)
    (he : j.error = .returned) :
    (stepMain j).value = .returned ∧ (stepMain j).error = .returned ∧
      (stepMain j).waited = true := by
  have hw : j.wg = 0 := by rw [h.counter, hv, he]; rfl
  unfold stepMain
  cases hwt : j.waited <;> simp [hx, hv, he, hw, hwt]

theorem drain_ended {s : Strategy} {vals : List Value} {errs : List Err} {j : Join}
    (h : Inv s vals errs j) : (drain s j).Ended := by
  unfold drain
  simp only []
  cases hx : j.exited with
  | some c =>
    left
    have h2 : ((stepValue s)^[(stepMain (stepMain j)).values.length + 1]
        (stepMain (stepMain j))).exited = some c := by
      rw [(iterate_stepValue_frame s _ _).1, stepMain_exited, stepMain_exited, hx]
    rw [stepMain_exited, stepError_of_exited s _ (by rw [h2]; rfl), h2]
    rfl
  | none =>
    have h1 : (stepMain (stepMain j)).exited = none := by simp [stepMain_exited, hx]
    have hst := stepMain_started j hx
    have hi1 := inv_stepMain (inv_stepMain h)
    generalize stepMain (stepMain j) = j1 at h1 hst hi1
    have hv2 := iterate_stepValue_returned s (j1.values.length + 1) j1 h1 hst.1 (Nat.lt_succ_self _)
    have hf2 := iterate_stepValue_frame s (j1.values.length + 1) j1
    have hi2 := inv_iterate (j1.values.length + 1) hi1
    generalize (stepValue s)^[j1.values.length + 1] j1 = j2 at hv2 hf2 hi2
    have hx2 : j2.exited = none := hf2.1.trans h1
    have he2 : j2.error ≠ .idle := by rw [hf2.2]; exact hst.2
    have hv3 : (stepError s j2).value = .returned := (stepError_value s j2).trans hv2
    have hi3 := inv_stepError hi2
    rcases stepError_ended s j2 hx2 he2 with h3 | h3
    · left
      rw [stepMain_exited]; exact h3
    · cases hx3 : (stepError s j2).exited with
      | some c => left; rw [stepMain_exited, hx3]; rfl
      | none => right; exact stepMain_waits hi3 hx3 hv3 h3

theorem join_ended (s : Strategy) (sched : List Tid) (vals : List Value) (errs : List Err) :
    (join s sched vals errs).Ended :=
  drain_ended (inv_runSched sched (inv_start s vals errs))

/-- A strategy whose error listener uses `logSafeErr` never ends the process. -/
theorem join_not_fatal (s : Strategy) (hs : s.fatal = false) (sched : List Tid)
    (vals : List Value) (errs : List Err) : (join s sched vals errs).exited = none := by
  have h := (inv_join s sched vals errs).handled
  rcases h with ⟨_, _, hx, _⟩ | ⟨e, _, _, hx⟩
  · exact hx
  · simp only [hs, Bool.false_eq_true, if_false] at hx
    exact hx.1

/-- Without an error event the process does not exit during the join. -/
theorem join_no_errors (s : Strategy) (sched : List Tid) (vals : List Value) :
    (join s sched vals []).exited = none ∧ reports (join s sched vals []).trace = [] := by
  have h := (inv_join s sched vals []).handled
  rcases h with ⟨_, hr, hx, _⟩ | ⟨e, he, _, _⟩
  · exact ⟨hx, hr⟩
  · cases he

/-- With an error event the first one, and only it, is reported. -/
theorem join_first_error (s : Strategy) (sched : List Tid) (vals : List Value)
    (e : Err) (es : List Err) :
    reports (join s sched vals (e :: es)).trace = [(e.reason, errMessage s e)] ∧
      (join s sched vals (e :: es)).exited = if s.fatal then some e.reason else none := by
  have hi := inv_join s sched vals (e :: es)
  have hend := join_ended s sched vals (e :: es)
  rcases hi.handled with ⟨_, _, hx, hr⟩ | ⟨e1, he, hr, hx⟩
  · rcases hend with h | ⟨_, h, _⟩
    · simp [hx] at h
    · cases hr h
  · have he1 : e1 = e := (List.cons.inj he).1.symm
    subst he1
    refine ⟨hr, ?_⟩
    cases hf : s.fatal
    · simp only [hf, Bool.false_eq_true, if_false] at hx ⊢
      exact hx.1
    · simp only [hf, if_true] at hx ⊢
      exact hx.1

/-- A join that does not end the process has started both listeners, both have
signalled once, every value was taken from the stream and `wg.Wait()` has returned. -/
theorem join_complete (s : Strategy) (sched : List Tid) (vals : List Value) (errs : List Err)
    (hx : (join s sched vals errs).exited = none) :
    Event.goListener .value ∈ (join s sched vals errs).trace ∧
    Event.goListener .error ∈ (join s sched vals errs).trace ∧
    Event.wgDone .value ∈ (join s sched vals errs).trace ∧
    Event.wgDone .error ∈ (join s sched vals errs).trace ∧
    signals .value (join s sched vals errs).trace = 1 ∧
    signals .error (join s sched vals errs).trace = 1 ∧
    (join s sched vals errs).values = [] ∧
    (join s sched vals errs).wg = 0 ∧
    (join s sched vals errs).waited = true := by
  have hi := inv_join s sched vals errs
  have hend := join_ended s sched vals errs
  generalize join s sched vals errs = j at hx hi hend
  rcases hend with h | ⟨hv, he, hw⟩
  · simp [hx] at h
  · have h2 := hi.valueSignals
    have h3 := hi.errorSignals
    rw [if_pos hv] at h2
    rw [if_pos he] at h3
    refine ⟨hi.valueStarted.2 (by simp [hv]), hi.errorStarted.2 (by simp [he]), ?_, ?_, h2, h3,
      hi.consumed hv, hi.waited hw, hw⟩
    · apply List.count_pos_iff.1
      unfold signals at h2
      omega
    · apply List.count_pos_iff.1
      unfold signals at h3
      omega

/-- What a join writes with `logInteractive`. -/
theorem join_shown (s : Strategy) (sched : List Tid) (vals : List Value) (errs : List Err)
    (hx : (join s sched vals errs).exited = none) :
    shown (join s sched vals errs).trace = shownOf s vals := by
  have hi := inv_join s sched vals errs
  have hc := (join_complete s sched vals errs hx).2.2.2.2.2.2.1
  have ho := hi.output
  rw [hc] at ho
  simpa [shownOf, shown] using ho

theorem runSched_append (s : Strategy) (a b : List Tid) (j : Join) :
    runSched s (a ++ b) j = runSched s b (runSched s a j) := by
  simp [runSched, List.foldl_append]

theorem runSched_replicate_value (s : Strategy) (n : Nat) (j : Join) :
    runSched s (List.replicate n .value) j = (stepValue s)^[n] j := by
  induction n generalizing j with
  | zero => rfl
  | succ n ih =>
    rw [List.replicate_succ, Function.iterate_succ_apply]
    exact ih (stepValue s j)

/-- The final phase of a join is itself a run of the three threads. -/
theorem drain_eq_runSched (s : Strategy) (j : Join) :
    drain s j = runSched s
      ([.main, .main] ++ List.replicate ((stepMain (stepMain j)).values.length + 1) .value ++
        [.error, .main]) j := by
  rw [runSched_append, runSched_append, runSched_replicate_value]
  rfl

theorem Inv.signals_le {s : Strategy} {vals : List Value} {errs : List Err} {j : Join}
    (h : Inv s vals errs j) :
    signals .value j.trace ≤ 1 ∧ signals .error j.trace ≤ 1 ∧
      j.wg = 2 - (signals .value j.trace : Int) - (signals .error j.trace : Int) ∧
      (reports j.trace).length ≤ 1 := by
  have h1 := h.counter
  have h2 := h.valueSignals
  have h3 := h.errorSignals
  have h4 : (reports j.trace).length ≤ 1 := by
    rcases h.handled with ⟨_, hr, _, _⟩ | ⟨e, _, hr, _⟩ <;> simp [hr]
  refine ⟨?_, ?_, ?_, h4⟩
  · rw [h2]; split_ifs <;> omega
  · rw [h3]; split_ifs <;> omega
  · rw [h1, h2, h3]
    cases j.value <;> cases j.error <;> simp [LState.pending]

/-- C5, amended.  At every moment of a join, under every interleaving of the driver
thread and the two listeners, each listener has signalled at most once, at most one error
event has been handled, and the pending count equals 2 minus the signals given so far, so
it stays between 0 and 2 and is 0 exactly when both listeners have signalled.  A join of
the File or REPL strategy, and a join of the eval or stdin strategy whose error stream is
empty, ends with exactly one signal from each listener and the wait returned.  A join of
the eval or stdin strategy whose error stream is not empty ends inside `logErr`: the first
event is reported, the process exits with its reason, and the error listener has not
signalled. -/
theorem join_signals (s : Strategy) (sched : List Tid) (vals : List Value) (errs : List Err) :
    (∀ pre : List Tid,
      signals .value (runSched s pre (Join.start vals errs)).trace ≤ 1 ∧
      signals .error (runSched s pre (Join.start vals errs)).trace ≤ 1 ∧
      (reports (runSched s pre (Join.start vals errs)).trace).length ≤ 1 ∧
      (runSched s pre (Join.start vals errs)).wg =
        2 - (signals .value (runSched s pre (Join.start vals errs)).trace : Int)
          - (signals .error (runSched s pre (Join.start vals errs)).trace : Int) ∧
      0 ≤ (runSched s pre (Join.start vals errs)).wg ∧
      ((runSched s pre (Join.start vals errs)).wg = 0 ↔
        signals .value (runSched s pre (Join.start vals errs)).trace = 1 ∧
        signals .error (runSched s pre (Join.start vals errs)).trace = 1)) ∧
    (∃ full : List Tid, join s sched vals errs = runSched s full (Join.start vals errs)) ∧
    ((s.fatal = false ∨ errs = []) →
      signals .value (join s sched vals errs).trace = 1 ∧
      signals .error (join s sched vals errs).trace = 1 ∧
      (join s sched vals errs).wg = 0 ∧
      (join s sched vals errs).waited = true ∧
      (join s sched vals errs).exited = none ∧
      reports (join s sched vals errs).trace =
        (errs.head?.map (fun e => (e.reason, errMessage s e))).toList) ∧
    (∀ e es, s.fatal = true → errs = e :: es →
      signals .error (join s sched vals errs).trace = 0 ∧
      (join s sched vals errs).exited = some e.reason ∧
      (join s sched vals errs).waited = false ∧
      reports (join s sched vals errs).trace = [(e.reason, e.message)]) := by
  refine ⟨?_, ?_, ?_, ?_⟩
  · intro pre
    have hi := inv_runSched (s := s) pre (inv_start s vals errs)
    obtain ⟨a, b, c, d⟩ := hi.signals_le
    refine ⟨a, b, d, c, ?_, ?_⟩
    · omega
    · omega
  · refine ⟨sched ++ ([.main, .main] ++ List.replicate
      ((stepMain (stepMain (runSched s sched (Join.start vals errs)))).values.length + 1)
      .value ++ [.error, .main]), ?_⟩
    rw [runSched_append]
    exact drain_eq_runSched s _
  · intro h
    have hx : (join s sched vals errs).exited = none := by
      rcases h with h | h
      · exact join_not_fatal s h sched vals errs
      · subst h; exact (join_no_errors s sched vals).1
    obtain ⟨_, _, _, _, h5, h6, _, h8, h9⟩ := join_complete s sched vals errs hx
    refine ⟨h5, h6, h8, h9, hx, ?_⟩
    cases errs with
    | nil => exact (join_no_errors s sched vals).2
    | cons e es => exact (join_first_error s sched vals e es).1
  · intro e es hf he
    subst he
    have h := join_first_error s sched vals e es
    rw [hf, if_pos rfl] at h
    have hi := inv_join s sched vals (e :: es)
    have hm : errMessage s e = e.message := by
      cases s <;> first | rfl | cases hf
    refine ⟨?_, h.2, ?_, ?_⟩
    · rcases hi.handled with ⟨_, _, hx, _⟩ | ⟨e1, _, _, hx⟩
      · rw [h.2] at hx; cases hx
      · rw [hf, if_pos rfl] at hx
        rw [hi.errorSignals, hx.2]
        rfl
    · cases hw : (join s sched vals (e :: es)).waited with
      | false => rfl
      | true =>
        have h0 := hi.waited hw
        rcases hi.handled with ⟨_, _, hx, _⟩ | ⟨e1, _, _, hx⟩
        · rw [h.2] at hx; cases hx
        · rw [hf, if_pos rfl] at hx
          have hc := hi.counter
          have hp := LState.pending_nonneg (join s sched vals (e :: es)).value
          rw [hx.2] at hc
          have : LState.running.pending = 1 := rfl
          omega
    · rw [h.1, hm]

/-- C5 as stated fails in eval mode: with an event on the error stream the error
listener never signals completion, the process exits inside `logErr` instead. -/
theorem eval_error_listener_does_not_signal :
    signals .error (join .eval [] [] [⟨1, "unmatched"⟩]).trace = 0 ∧
      (join .eval [] [] [⟨1, "unmatched"⟩]).exited = some 1 := by
  decide

/-! ## The strategies -/

theorem reports_map_send (t : Text) : reports (t.map Event.send) = [] := by
  induction t with
  | nil => rfl
  | cons c cs ih => simp [reports]

theorem shown_map_send (t : Text) : shown (t.map Event.send) = [] := by
  induction t with
  | nil => rfl
  | cons c cs ih => simp [shown]

theorem attempted_append (a b : List Event) : attempted (a ++ b) = attempted a ++ attempted b := by
  simp [attempted]

theorem reads_append (a b : List Event) : reads (a ++ b) = reads a ++ reads b := by
  simp [reads]

theorem sent_append (a b : List Event) : sent (a ++ b) = sent a ++ sent b := by
  simp [sent]

theorem attempted_map_send (t : Text) : attempted (t.map Event.send) = [] := by
  induction t with
  | nil => rfl
  | cons c cs ih => simp [attempted]

theorem reads_map_send (t : Text) : reads (t.map Event.send) = [] := by
  induction t with
  | nil => rfl
  | cons c cs ih => simp [reads]

theorem attempted_inJoin {tr : List Event} (h : ∀ ev ∈ tr, ev.inJoin = true) :
    attempted tr = [] := by
  induction tr with
  | nil => rfl
  | cons e es ih =>
    have he := h e (List.mem_cons_self _ _)
    have := ih (fun ev hev => h ev (List.mem_cons_of_mem _ hev))
    cases e <;> simp_all [attempted, Event.inJoin]

theorem reads_inJoin {tr : List Event} (h : ∀ ev ∈ tr, ev.inJoin = true) : reads tr = [] := by
  induction tr with
  | nil => rfl
  | cons e es ih =>
    have he := h e (List.mem_cons_self _ _)
    have := ih (fun ev hev => h ev (List.mem_cons_of_mem _ hev))
    cases e <;> simp_all [reads, Event.inJoin]

/-- Only the REPL strategy writes values; the others write nothing, also when the
process exits during the join. -/
theorem join_shown_not_repl (s : Strategy) (hs : s ≠ .repl) (sched : List Tid)
    (vals : List Value) (errs : List Err) : shown (join s sched vals errs).trace = [] := by
  have ho := (inv_join s sched vals errs).output
  rw [shownOf_not_repl s hs, shownOf_not_repl s hs, List.append_nil] at ho
  exact ho

theorem feedAndJoin_trace (w : World) (s : Strategy) (n : Nat) (text : Text) (d : Driver) :
    (feedAndJoin w s n text d).trace =
      d.trace ++ text.map Event.send ++ [.closeInput] ++
        (join s (w.sched n) (w.engine n text).values (w.engine n text).errors).trace := rfl

theorem feedAndJoin_exited (w : World) (s : Strategy) (n : Nat) (text : Text) (d : Driver) :
    (feedAndJoin w s n text d).exited =
      (join s (w.sched n) (w.engine n text).values (w.engine n text).errors).exited := rfl

theorem feedAndJoin_requests (w : World) (s : Strategy) (n : Nat) (text : Text) (d : Driver) :
    (feedAndJoin w s n text d).requests = d.requests := rfl

theorem feedAndJoin_reports (w : World) (s : Strategy) (n : Nat) (text : Text) (d : Driver) :
    reports (feedAndJoin w s n text d).trace =
      reports d.trace ++
        reports (join s (w.sched n) (w.engine n text).values (w.engine n text).errors).trace := by
  rw [feedAndJoin_trace]
  simp [reports_append, reports_map_send]
  rfl

theorem feedAndJoin_shown (w : World) (s : Strategy) (n : Nat) (text : Text) (d : Driver) :
    shown (feedAndJoin w s n text d).trace =
      shown d.trace ++
        shown (join s (w.sched n) (w.engine n text).values (w.engine n text).errors).trace := by
  rw [feedAndJoin_trace]
  simp [shown_append, shown_map_send]
  rfl

theorem execFile_fail (w : World) (f : Flags) (path : Text) (d : Driver) (err : String)
    (h : w.openFile path = .error err) :
    execFile w f path d =
      ({ trace := d.trace ++
          [.execStream (f.debugLexer || f.verbose) (f.debugParser || f.verbose)
              (f.dump || f.verbose),
            .openFile path false,
            .logSafeErr w.kinds.ErrSystem
              ("could not open " ++ String.mk path ++ " for execution:\n\t-> " ++ err),
            .closeInput],
         requests := d.requests + 1, exited := d.exited }, true) := by
  simp [execFile, h, openRequest, Driver.emit]

theorem execFile_ok (w : World) (f : Flags) (path : Text) (d : Driver) (lines : List Text)
    (h : w.openFile path = .ok lines) :
    execFile w f path d =
      (feedAndJoin w (.file path) d.requests (lines.map (fun l => l ++ ['\n'])).flatten
        ((openRequest f d).emit [.openFile path true]), false) := by
  simp [execFile, h]

theorem execFile_running (w : World) (f : Flags) (path : Text) (d : Driver)
    (hd : d.exited = none) : (execFile w f path d).1.exited = none := by
  cases h : w.openFile path with
  | error err => rw [execFile_fail w f path d err h]; exact hd
  | ok lines =>
    rw [execFile_ok w f path d lines h, feedAndJoin_exited]
    exact join_not_fatal (.file path) rfl _ _ _

theorem execFile_requests (w : World) (f : Flags) (path : Text) (d : Driver) :
    (execFile w f path d).1.requests = d.requests + 1 := by
  cases h : w.openFile path with
  | error err => rw [execFile_fail w f path d err h]
  | ok lines => rw [execFile_ok w f path d lines h]; rfl

theorem execFile_shown (w : World) (f : Flags) (path : Text) (d : Driver) :
    shown (execFile w f path d).1.trace = shown d.trace := by
  cases h : w.openFile path with
  | error err => rw [execFile_fail w f path d err h]; simp [shown]
  | ok lines =>
    rw [execFile_ok w f path d lines h, feedAndJoin_shown,
      join_shown_not_repl _ (by simp)]
    simp [openRequest, Driver.emit, shown]

theorem runFiles_shown (w : World) (f : Flags) (files : List Text) (d : Driver) :
    shown (runFiles w f files d).trace = shown d.trace := by
  induction files generalizing d with
  | nil => rfl
  | cons p ps ih =>
    unfold runFiles
    simp only []
    split_ifs
    · exact execFile_shown w f p d
    · rw [ih, execFile_shown]

theorem dispatch_default (w : World) (f : Flags) (text : Text) (d : Driver)
    (h1 : hasPrefix text dumpDirective = false) (h2 : hasPrefix text clearDirective = false)
    (h3 : hasPrefix text exitDirective = false) (h4 : hasPrefix text loadDirective = false) :
    dispatch w f text d = (feedAndJoin w .repl d.requests text (openRequest f d), false) := by
  simp [dispatch, h1, h2, h3, h4]

/-- C4, amended.  Under every interleaving: a line the REPL submits to the engine gets
the display form of each of its values written with `logInteractive`, one per value and
in production order, and every value is taken from the stream; in eval, stdin and file
mode nothing is written for any value; a File strategy join takes every value from the
stream, and so does an eval or stdin join whose error stream is empty. -/
theorem values_shown_only_by_repl (w : World) (f : Flags) :
    (∀ text d, hasPrefix text dumpDirective = false → hasPrefix text clearDirective = false →
      hasPrefix text exitDirective = false → hasPrefix text loadDirective = false →
      shown (dispatch w f text d).1.trace =
        shown d.trace ++ (w.engine d.requests text).values.map Value.String) ∧
    (∀ sched vals errs, (join .repl sched vals errs).values = [] ∧
      shown (join .repl sched vals errs).trace = vals.map Value.String) ∧
    (mode f = .eval → shown (main w f).trace = []) ∧
    (mode f = .stdin → shown (main w f).trace = []) ∧
    (mode f = .files → shown (main w f).trace = []) ∧
    (∀ path sched vals errs, (join (.file path) sched vals errs).values = [] ∧
      shown (join (.file path) sched vals errs).trace = []) ∧
    (∀ sched vals, (join .eval sched vals []).values = [] ∧
      (join .stdin sched vals []).values = []) := by
  refine ⟨?_, ?_, ?_, ?_, ?_, ?_, ?_⟩
  · intro text d h1 h2 h3 h4
    rw [dispatch_default w f text d h1 h2 h3 h4, feedAndJoin_shown,
      join_shown _ _ _ _ (join_not_fatal .repl rfl _ _ _), shownOf_repl]
    simp [openRequest, shown]
  · intro sched vals errs
    have hx := join_not_fatal .repl rfl sched vals errs
    exact ⟨(join_complete _ _ _ _ hx).2.2.2.2.2.2.1, by rw [join_shown _ _ _ _ hx, shownOf_repl]⟩
  · intro hm
    simp only [main, hm, Driver.finish, feedAndJoin_shown]
    rw [join_shown_not_repl _ (by simp)]
    rfl
  · intro hm
    simp only [main, hm, Driver.finish, feedAndJoin_shown]
    rw [join_shown_not_repl _ (by simp)]
    rfl
  · intro hm
    simp only [main, hm, Driver.finish]
    rw [runFiles_shown]
    rfl
  · intro path sched vals errs
    have hx := join_not_fatal (.file path) rfl sched vals errs
    exact ⟨(join_complete _ _ _ _ hx).2.2.2.2.2.2.1, join_shown_not_repl _ (by simp) _ _ _⟩
  · intro sched vals
    exact ⟨(join_complete _ _ _ _ (join_no_errors .eval sched vals).1).2.2.2.2.2.2.1,
      (join_complete _ _ _ _ (join_no_errors .stdin sched vals).1).2.2.2.2.2.2.1⟩

/-- C4 as stated fails in eval mode: the engine produces the value `2` for the request,
and nothing is written for it. -/
theorem eval_writes_no_value :
    mode sumFlags = .eval ∧
      (sumWorld.engine 0 sumFlags.eval).values = [{ display := "2" }] ∧
      shown (main sumWorld sumFlags).trace = [] := by
  decide

theorem join_reports (s : Strategy) (sched : List Tid) (vals : List Value) (errs : List Err) :
    reports (join s sched vals errs).trace =
      (errs.head?.map (fun e => (e.reason, errMessage s e))).toList := by
  cases errs with
  | nil => exact (join_no_errors s sched vals).2
  | cons e es => exact (join_first_error s sched vals e es).1

theorem opened_append (a b : List Event) : opened (a ++ b) = opened a + opened b := by
  simp [opened]

theorem opened_map_send (t : Text) : opened (t.map Event.send) = 0 := by
  induction t with
  | nil => rfl
  | cons c cs ih => simp [opened, Event.isExecStream]

theorem opened_inJoin {tr : List Event} (h : ∀ ev ∈ tr, ev.inJoin = true) : opened tr = 0 := by
  induction tr with
  | nil => rfl
  | cons e es ih =>
    have he := h e (List.mem_cons_self _ _)
    have := ih (fun ev hev => h ev (List.mem_cons_of_mem _ hev))
    cases e <;> simp_all [opened, Event.inJoin, Event.isExecStream]

/-- C2, amended.  For every path that cannot be opened, `execFile` first opens one
execution request (`ctx.ExecStream` is called before `os.Open`), then reports a System
error, closes the input of that request without sending a rune and without starting a
listener, and returns an error. -/
theorem execFile_open_failure (w : World) (f : Flags) (path : Text) (d : Driver) (err : String)
    (h : w.openFile path = .error err) :
    (execFile w f path d).2 = true ∧
    (execFile w f path d).1.trace = d.trace ++
      [.execStream (f.debugLexer || f.verbose) (f.debugParser || f.verbose)
          (f.dump || f.verbose),
        .openFile path false,
        .logSafeErr w.kinds.ErrSystem
          ("could not open " ++ String.mk path ++ " for execution:\n\t-> " ++ err),
        .closeInput] ∧
    (execFile w f path d).1.requests = d.requests + 1 ∧
    opened (execFile w f path d).1.trace = opened d.trace + 1 ∧
    sent (execFile w f path d).1.trace = sent d.trace ∧
    (execFile w f path d).1.exited = d.exited := by
  rw [execFile_fail w f path d err h]
  refine ⟨rfl, rfl, rfl, ?_, ?_, rfl⟩
  · rw [opened_append]; rfl
  · rw [sent_append]; simp [sent]

theorem execFile_open_failure_witness :
    exampleWorld.openFile ['m'] = .error "no such file" ∧
      opened (execFile exampleWorld filesFlags ['m'] Driver.init).1.trace = 1 :=
  ⟨rfl, (execFile_open_failure exampleWorld filesFlags ['m'] Driver.init "no such file" rfl).2.2.2.1⟩

/-- C2 as stated fails: for the missing file `m` the call of `ctx.ExecStream` is made,
before `os.Open` is tried. -/
theorem execFile_opens_request_for_missing_file :
    exampleWorld.openFile ['m'] = .error "no such file" ∧
      (execFile exampleWorld filesFlags ['m'] Driver.init).2 = true ∧
      opened (execFile exampleWorld filesFlags ['m'] Driver.init).1.trace = 1 ∧
      (execFile exampleWorld filesFlags ['m'] Driver.init).1.trace.head? =
        some (.execStream false false false) :=
  ⟨rfl, by decide, by decide, by decide⟩

theorem execFile_attempted (w : World) (f : Flags) (path : Text) (d : Driver) :
    attempted (execFile w f path d).1.trace = attempted d.trace ++ [path] := by
  cases h : w.openFile path with
  | error err => rw [execFile_fail w f path d err h]; simp [attempted]
  | ok lines =>
    rw [execFile_ok w f path d lines h, feedAndJoin_trace]
    simp only [attempted_append, attempted_map_send,
      attempted_inJoin (inv_join _ _ _ _).events, openRequest, Driver.emit]
    simp [attempted]

theorem execFile_reports (w : World) (f : Flags) (path : Text) (d : Driver) :
    reports (execFile w f path d).1.trace = reports d.trace ++ fileReports w d.requests [path] := by
  cases h : w.openFile path with
  | error err => rw [execFile_fail w f path d err h]; simp [reports, fileReports, h]
  | ok lines =>
    rw [execFile_ok w f path d lines h, feedAndJoin_reports, join_reports]
    simp [openRequest, Driver.emit, reports, fileReports, h, errMessage]

theorem execFile_opened (w : World) (f : Flags) (path : Text) (d : Driver) :
    opened (execFile w f path d).1.trace = opened d.trace + 1 := by
  cases h : w.openFile path with
  | error err => rw [execFile_fail w f path d err h, opened_append]; rfl
  | ok lines =>
    rw [execFile_ok w f path d lines h, feedAndJoin_trace]
    simp only [opened_append, opened_map_send,
      opened_inJoin (inv_join _ _ _ _).events, openRequest, Driver.emit]
    rfl

theorem fileReports_cons (w : World) (n : Nat) (path : Text) (rest : List Text) :
    fileReports w n (path :: rest) = fileReports w n [path] ++ fileReports w (n + 1) rest := by
  simp [fileReports]

theorem runFiles_spec (w : World) (f : Flags) (files : List Text) (d : Driver)
    (hd : d.exited = none) :
    (runFiles w f files d).exited = none ∧
    attempted (runFiles w f files d).trace = attempted d.trace ++ files ∧
    reports (runFiles w f files d).trace = reports d.trace ++ fileReports w d.requests files ∧
    opened (runFiles w f files d).trace = opened d.trace + files.length := by
  induction files generalizing d with
  | nil => simp [runFiles, fileReports, hd]
  | cons p ps ih =>
    have hx := execFile_running w f p d hd
    have h := ih (execFile w f p d).1 hx
    unfold runFiles
    simp only [hx, Option.isSome_none, Bool.false_eq_true, if_false]
    rw [h.1, h.2.1, h.2.2.1, h.2.2.2, execFile_attempted, execFile_reports, execFile_requests,
      fileReports_cons w d.requests p ps]
    refine ⟨rfl, by simp, by simp, ?_⟩
    rw [execFile_opened, List.length_cons]
    omega

/-- C7.  In batch file mode every `-input` path is handed to `os.Open` exactly once
and in the order given, each path gets its own execution request, each failure (the
failed open, or the first error event of the engine for that file) is reported once
with `logSafeErr`, which does not end the process, and the exit status after the last
file is 0. -/
theorem files_all_attempted (w : World) (f : Flags) (hm : mode f = .files) :
    f.files ≠ [] ∧
    (main w f).status = 0 ∧
    attempted (main w f).trace = f.files ∧
    opened (main w f).trace = f.files.length ∧
    reports (main w f).trace = fileReports w 0 f.files := by
  have h := runFiles_spec w f f.files Driver.init rfl
  simp only [main, hm, Driver.finish]
  rw [h.1, h.2.1, h.2.2.1, h.2.2.2]
  refine ⟨?_, rfl, by simp [Driver.init, attempted], by simp [Driver.init, opened],
    by simp [Driver.init, reports]⟩
  intro h0
  simp [mode, h0] at hm
  split_ifs at hm

theorem files_all_attempted_witness :
    mode filesFlags = .files ∧ (main exampleWorld filesFlags).status = 0 ∧
      attempted (main exampleWorld filesFlags).trace = [['m'], ['a']] :=
  ⟨by decide, (files_all_attempted exampleWorld filesFlags (by decide)).2.1,
    (files_all_attempted exampleWorld filesFlags (by decide)).2.2.1⟩

/-! ## The REPL -/

theorem exit_not_dump (text : Text) (h : hasPrefix text exitDirective = true) :
    hasPrefix text dumpDirective = false := by
  obtain ⟨r, rfl⟩ := List.isPrefixOf_iff_prefix.1 h
  simp [hasPrefix, exitDirective, dumpDirective, List.isPrefixOf]

theorem exit_not_clear (text : Text) (h : hasPrefix text exitDirective = true) :
    hasPrefix text clearDirective = false := by
  obtain ⟨r, rfl⟩ := List.isPrefixOf_iff_prefix.1 h
  simp [hasPrefix, exitDirective, clearDirective, List.isPrefixOf]

theorem load_in_bounds (text : Text) (h : hasPrefix text loadDirective = true) :
    sliceFrom text 5 = some (text.drop 5) := by
  have hp : loadDirective <+: text := List.isPrefixOf_iff_prefix.1 h
  have hl := hp.length_le
  have : loadDirective.length = 6 := rfl
  unfold sliceFrom
  rw [if_pos (by omega)]

theorem dispatch_dump (w : World) (f : Flags) (text : Text) (d : Driver)
    (h : hasPrefix text dumpDirective = true) :
    dispatch w f text d = (d.emit [.dump], false) := by
  simp [dispatch, h]

theorem dispatch_clear (w : World) (f : Flags) (text : Text) (d : Driver)
    (h1 : hasPrefix text dumpDirective = false) (h : hasPrefix text clearDirective = true) :
    dispatch w f text d = (d.emit [.printf "\x1b[2J\x1b[H"], false) := by
  simp [dispatch, h1, h]

theorem dispatch_exit (w : World) (f : Flags) (text : Text) (d : Driver)
    (h : hasPrefix text exitDirective = true) : dispatch w f text d = (d, true) := by
  simp [dispatch, h, exit_not_dump text h, exit_not_clear text h]

theorem dispatch_load (w : World) (f : Flags) (text : Text) (d : Driver)
    (h1 : hasPrefix text dumpDirective = false) (h2 : hasPrefix text clearDirective = false)
    (h3 : hasPrefix text exitDirective = false) (h : hasPrefix text loadDirective = true) :
    dispatch w f text d =
      (if (execFile w f (trim (text.drop 5) [' ', '\t', '\n']) d).2 then
          (execFile w f (trim (text.drop 5) [' ', '\t', '\n']) d).1
        else (execFile w f (trim (text.drop 5) [' ', '\t', '\n']) d).1.emit
          [.logDebug ("loaded file:\n\t-> " ++ String.mk (trim (text.drop 5) [' ', '\t', '\n']))],
        false) := by
  simp only [dispatch, h1, h2, h3, h, load_in_bounds text h, Bool.false_eq_true, if_false, if_true]
  split_ifs <;> rfl

/-- The five ways a line can be dispatched. -/
theorem dispatch_cases (text : Text) :
    hasPrefix text dumpDirective = true ∨
    (hasPrefix text dumpDirective = false ∧ hasPrefix text clearDirective = true) ∨
    hasPrefix text exitDirective = true ∨
    (hasPrefix text dumpDirective = false ∧ hasPrefix text clearDirective = false ∧
      hasPrefix text exitDirective = false ∧ hasPrefix text loadDirective = true) ∨
    (hasPrefix text dumpDirective = false ∧ hasPrefix text clearDirective = false ∧
      hasPrefix text exitDirective = false ∧ hasPrefix text loadDirective = false) := by
  cases hasPrefix text dumpDirective <;> cases hasPrefix text clearDirective <;>
    cases hasPrefix text exitDirective <;> cases hasPrefix text loadDirective <;> simp

theorem dispatch_shouldExit (w : World) (f : Flags) (text : Text) (d : Driver) :
    (dispatch w f text d).2 = hasPrefix text exitDirective := by
  rcases dispatch_cases text with h | ⟨h1, h⟩ | h | ⟨h1, h2, h3, h⟩ | ⟨h1, h2, h3, h⟩
  · rw [dispatch_dump w f text d h]
    cases hx : hasPrefix text exitDirective
    · rfl
    · rw [exit_not_dump text hx] at h; cases h
  · rw [dispatch_clear w f text d h1 h]
    cases hx : hasPrefix text exitDirective
    · rfl
    · rw [exit_not_clear text hx] at h; cases h
  · rw [dispatch_exit w f text d h, h]
  · rw [dispatch_load w f text d h1 h2 h3 h, h3]
  · rw [dispatch_default w f text d h1 h2 h3 h, h3]

theorem dispatch_running (w : World) (f : Flags) (text : Text) (d : Driver)
    (hd : d.exited = none) : (dispatch w f text d).1.exited = none := by
  rcases dispatch_cases text with h | ⟨h1, h⟩ | h | ⟨h1, h2, h3, h⟩ | ⟨h1, h2, h3, h⟩
  · rw [dispatch_dump w f text d h]; exact hd
  · rw [dispatch_clear w f text d h1 h]; exact hd
  · rw [dispatch_exit w f text d h]; exact hd
  · rw [dispatch_load w f text d h1 h2 h3 h]
    have := execFile_running w f (trim (text.drop 5) [' ', '\t', '\n']) d hd
    simp only []
    split_ifs
    · exact this
    · exact this
  · rw [dispatch_default w f text d h1 h2 h3 h, feedAndJoin_exited]
    exact join_not_fatal .repl rfl _ _ _

theorem execFile_reads (w : World) (f : Flags) (path : Text) (d : Driver) :
    reads (execFile w f path d).1.trace = reads d.trace := by
  cases h : w.openFile path with
  | error err => rw [execFile_fail w f path d err h]; simp [reads]
  | ok lines =>
    rw [execFile_ok w f path d lines h, feedAndJoin_trace]
    simp only [reads_append, reads_map_send,
      reads_inJoin (inv_join _ _ _ _).events, openRequest, Driver.emit]
    simp [reads]

theorem dispatch_reads (w : World) (f : Flags) (text : Text) (d : Driver) :
    reads (dispatch w f text d).1.trace = reads d.trace := by
  rcases dispatch_cases text with h | ⟨h1, h⟩ | h | ⟨h1, h2, h3, h⟩ | ⟨h1, h2, h3, h⟩
  · rw [dispatch_dump w f text d h]; simp [Driver.emit, reads]
  · rw [dispatch_clear w f text d h1 h]; simp [Driver.emit, reads]
  · rw [dispatch_exit w f text d h]
  · rw [dispatch_load w f text d h1 h2 h3 h]
    simp only []
    split_ifs
    · exact execFile_reads _ _ _ _
    · simp only [Driver.emit, reads_append, execFile_reads]
      simp [reads]
  · rw [dispatch_default w f text d h1 h2 h3 h, feedAndJoin_trace]
    simp only [reads_append, reads_map_send,
      reads_inJoin (inv_join _ _ _ _).events, openRequest]
    simp [reads]

theorem replLoop_nil (w : World) (f : Flags) (last : Text) (d : Driver) :
    replLoop w f [] last d =
      { trace := d.trace ++
          [prompt, .readString last false,
           .logSafeErr w.kinds.ErrSystem ("unexpected stop to input:\n\t-> " ++ w.readErr)],
        requests := d.requests, exited := some w.kinds.ErrSystem } := rfl

theorem replLoop_exit (w : World) (f : Flags) (text : Text) (rest : List Text) (last : Text)
    (d : Driver) (hd : d.exited = none) (h : hasPrefix text exitDirective = true) :
    replLoop w f (text :: rest) last d =
      { trace := d.trace ++ [prompt, .readString text true], requests := d.requests,
        exited := some 0 } := by
  unfold replLoop
  simp only [dispatch_exit w f text _ h, Driver.emit, hd, Option.isSome_none,
    Bool.false_eq_true, if_false, if_true]

theorem replLoop_continue (w : World) (f : Flags) (text : Text) (rest : List Text) (last : Text)
    (d : Driver) (hd : d.exited = none) (h : hasPrefix text exitDirective = false) :
    replLoop w f (text :: rest) last d =
      replLoop w f rest last (dispatch w f text (d.emit [prompt, .readString text true])).1 := by
  conv_lhs => unfold replLoop
  have hx := dispatch_running w f text (d.emit [prompt, .readString text true]) hd
  simp only [hx, dispatch_shouldExit, h, Option.isSome_none, Bool.false_eq_true, if_false]

theorem replLoop_spec (w : World) (f : Flags) (lines : List Text) (last : Text) (d : Driver)
    (hd : d.exited = none) :
    (replLoop w f lines last d).exited =
      some (if lines.any (fun t => hasPrefix t exitDirective) then 0 else w.kinds.ErrSystem) ∧
    reads (replLoop w f lines last d).trace =
      reads d.trace ++ (untilExit lines).map (fun t => (t, true)) ++
        (if lines.any (fun t => hasPrefix t exitDirective) then [] else [(last, false)]) := by
  induction lines generalizing d with
  | nil => rw [replLoop_nil]; simp [reads_append, reads, untilExit, prompt]
  | cons t ts ih =>
    cases h : hasPrefix t exitDirective with
    | true =>
      rw [replLoop_exit w f t ts last d hd h]
      simp [h, reads_append, reads, untilExit, prompt]
    | false =>
      rw [replLoop_continue w f t ts last d hd h]
      have hx := dispatch_running w f t (d.emit [prompt, .readString t true]) hd
      have := ih _ hx
      rw [this.1, this.2, dispatch_reads]
      simp [h, reads_append, reads, untilExit, prompt, Driver.emit]

theorem load_not_others (text : Text) (h : hasPrefix text loadDirective = true) :
    hasPrefix text dumpDirective = false ∧ hasPrefix text clearDirective = false ∧
      hasPrefix text exitDirective = false := by
  obtain ⟨r, rfl⟩ := List.isPrefixOf_iff_prefix.1 h
  simp [hasPrefix, clearDirective, dumpDirective, exitDirective, loadDirective, List.isPrefixOf]

/-- C8.  In the REPL, a line read without error that begins with `@exit`, whatever
follows on the line, ends the loop: nothing after it is read, the process exits with
status 0, no execution request is opened and no rune of the line is sent to the
engine. -/
theorem exit_directive_ends_repl (w : World) (f : Flags) (text : Text) (rest : List Text)
    (last : Text) (d : Driver) (hd : d.exited = none)
    (h : hasPrefix text exitDirective = true) :
    (replLoop w f (text :: rest) last d).trace = d.trace ++ [prompt, .readString text true] ∧
    (replLoop w f (text :: rest) last d).finish.status = 0 ∧
    (replLoop w f (text :: rest) last d).requests = d.requests ∧
    opened (replLoop w f (text :: rest) last d).trace = opened d.trace ∧
    sent (replLoop w f (text :: rest) last d).trace = sent d.trace := by
  rw [replLoop_exit w f text rest last d hd h]
  refine ⟨rfl, rfl, rfl, ?_, ?_⟩
  · rw [opened_append]; rfl
  · rw [sent_append]; simp [sent, prompt]

theorem exit_directive_ends_repl_witness :
    (readLines exitWorld.stdin).1 = [['@', 'e', 'x', 'i', 't', ' ', '1', '\n'], ['x', '\n']] ∧
      hasPrefix ['@', 'e', 'x', 'i', 't', ' ', '1', '\n'] exitDirective = true ∧
      (replLoop exitWorld replFlags [['@', 'e', 'x', 'i', 't', ' ', '1', '\n'], ['x', '\n']] []
        Driver.init).finish.status = 0 :=
  ⟨by decide, by decide,
    (exit_directive_ends_repl exitWorld replFlags ['@', 'e', 'x', 'i', 't', ' ', '1', '\n']
      [['x', '\n']] [] Driver.init rfl (by decide)).2.1⟩

/-- C9.  In interactive mode the only fatal error is a failed read.  A REPL run ends
with status 0 if a line starting with `@exit` is reached and with the System status
otherwise, and until then every line is read, whatever errors the lines before it
produced.  A line submitted to the engine whose error stream is not empty has its first
error reported and the loop goes on with the next read; so does an `@load` of a path that
cannot be opened, after the System error report.  A failed read (end of input included)
is reported as a System error and ends the process with the System status; the text
read is not dispatched: no request is opened and nothing is sent. -/
theorem repl_only_read_failure_is_fatal (w : World) (f : Flags) (lines : List Text)
    (last : Text) (d : Driver) (hd : d.exited = none) :
    ((replLoop w f lines last d).finish.status =
      if lines.any (fun t => hasPrefix t exitDirective) then 0 else w.kinds.ErrSystem) ∧
    (reads (replLoop w f lines last d).trace =
      reads d.trace ++ (untilExit lines).map (fun t => (t, true)) ++
        (if lines.any (fun t => hasPrefix t exitDirective) then [] else [(last, false)])) ∧
    (∀ text rest e es,
      hasPrefix text dumpDirective = false → hasPrefix text clearDirective = false →
      hasPrefix text exitDirective = false → hasPrefix text loadDirective = false →
      (w.engine d.requests text).errors = e :: es →
      replLoop w f (text :: rest) last d =
        replLoop w f rest last (dispatch w f text (d.emit [prompt, .readString text true])).1 ∧
      (dispatch w f text (d.emit [prompt, .readString text true])).1.exited = none ∧
      reports (dispatch w f text (d.emit [prompt, .readString text true])).1.trace =
        reports d.trace ++ [(e.reason, e.message)]) ∧
    (∀ text rest err,
      hasPrefix text loadDirective = true →
      w.openFile (trim (text.drop 5) [' ', '\t', '\n']) = .error err →
      replLoop w f (text :: rest) last d =
        replLoop w f rest last (dispatch w f text (d.emit [prompt, .readString text true])).1 ∧
      (dispatch w f text (d.emit [prompt, .readString text true])).1.exited = none ∧
      reports (dispatch w f text (d.emit [prompt, .readString text true])).1.trace =
        reports d.trace ++
          [(w.kinds.ErrSystem,
            "could not open " ++ String.mk (trim (text.drop 5) [' ', '\t', '\n']) ++
              " for execution:\n\t-> " ++ err)]) ∧
    ((replLoop w f [] last d).trace = d.trace ++
        [prompt, .readString last false,
         .logSafeErr w.kinds.ErrSystem ("unexpected stop to input:\n\t-> " ++ w.readErr)] ∧
      (replLoop w f [] last d).finish.status = w.kinds.ErrSystem ∧
      opened (replLoop w f [] last d).trace = opened d.trace ∧
      sent (replLoop w f [] last d).trace = sent d.trace) := by
  have hspec := replLoop_spec w f lines last d hd
  refine ⟨?_, hspec.2, ?_, ?_, ?_⟩
  · simp only [Driver.finish, hspec.1, Option.getD_some]
  · intro text rest e es h1 h2 h3 h4 he
    refine ⟨replLoop_continue w f text rest last d hd h3,
      dispatch_running w f text _ hd, ?_⟩
    rw [dispatch_default w f text _ h1 h2 h3 h4, feedAndJoin_reports, join_reports]
    have he' : (w.engine (d.emit [prompt, .readString text true]).requests text).errors
        = e :: es := he
    rw [he']
    simp [openRequest, Driver.emit, reports_append, reports, prompt, errMessage]
  · intro text rest err h herr
    obtain ⟨h1, h2, h3⟩ := load_not_others text h
    refine ⟨replLoop_continue w f text rest last d hd h3,
      dispatch_running w f text _ hd, ?_⟩
    rw [dispatch_load w f text _ h1 h2 h3 h, execFile_fail w f _ _ err herr]
    simp [Driver.emit, reports_append, reports, prompt]
  · rw [replLoop_nil]
    refine ⟨rfl, rfl, ?_, ?_⟩
    · rw [opened_append]; rfl
    · rw [sent_append]; simp [sent, prompt]

theorem repl_only_read_failure_is_fatal_witness :
    (replLoop exampleWorld replFlags [['1', '\n'], ['@', 'l', 'o', 'a', 'd', ' ', 'm', '\n']] []
      Driver.init).finish.status = 40 :=
  (repl_only_read_failure_is_fatal exampleWorld replFlags
    [['1', '\n'], ['@', 'l', 'o', 'a', 'd', ' ', 'm', '\n']] [] Driver.init rfl).1

/-- C6, amended.  When neither `-version` nor `-help` is given, exactly one mode runs for
every combination of `-repl`, `-eval` and `-input`: REPL if `-repl` is set; otherwise
eval if the `-eval` string is not empty (an `-eval` given with the empty string counts as
absent); otherwise file mode if at least one `-input` path was given; otherwise stdin. -/
theorem mode_priority (w : World) (a : Args) (hv : a.version = false) (hh : a.help = false) :
    (mode a.parse =
      if a.repl then .repl
      else if a.eval.getD [] ≠ [] then .eval
      else if a.files ≠ [] then .files
      else .stdin) ∧
    (a.repl = true →
      main w a.parse =
        (replLoop w a.parse (readLines w.stdin).1 (readLines w.stdin).2 Driver.init).finish) ∧
    (a.repl = false → ∀ s, a.eval = some s → s ≠ [] →
      main w a.parse = (feedAndJoin w .eval 0 s (openRequest a.parse Driver.init)).finish) ∧
    (a.repl = false → (a.eval = none ∨ a.eval = some []) → a.files ≠ [] →
      main w a.parse = (runFiles w a.parse a.files Driver.init).finish) ∧
    (a.repl = false → (a.eval = none ∨ a.eval = some []) → a.files = [] →
      main w a.parse =
        (feedAndJoin w .stdin 0 w.stdin (openRequest a.parse Driver.init)).finish) := by
  refine ⟨?_, ?_, ?_, ?_, ?_⟩
  · simp only [mode, Args.parse, hv, hh, Bool.false_eq_true, if_false]
    cases a.files <;> simp
  · intro hr
    simp [main, mode, Args.parse, hv, hh, hr]
  · intro hr s hs hne
    simp [main, mode, Args.parse, hv, hh, hr, hs, hne]
  · intro hr he hf
    have he' : a.eval.getD [] = [] := by rcases he with h | h <;> simp [h]
    have hl : 0 < a.files.length := List.length_pos.2 hf
    simp [main, mode, Args.parse, hv, hh, hr, he', hl]
  · intro hr he hf
    have he' : a.eval.getD [] = [] := by rcases he with h | h <;> simp [h]
    simp [main, mode, Args.parse, hv, hh, hr, he', hf]

theorem mode_priority_witness :
    allArgs.version = false ∧ allArgs.help = false ∧ mode allArgs.parse = .repl :=
  ⟨rfl, rfl, (mode_priority exampleWorld allArgs rfl rfl).1⟩

/-- C6 as stated fails for `ink -eval ""`: an `-eval` string was supplied, yet the mode
that runs is stdin, because the test is `*eval != ""`. -/
theorem empty_eval_runs_stdin :
    emptyEvalArgs.version = false ∧ emptyEvalArgs.help = false ∧
      emptyEvalArgs.repl = false ∧ emptyEvalArgs.eval.isSome = true ∧
      claimedMode emptyEvalArgs = .eval ∧ mode emptyEvalArgs.parse = .stdin := by
  decide

/-! ## Single-flight access to the engine -/

theorem scan_append (a b : List Event) : scan (a ++ b) = b.foldl Scan.step (scan a) := by
  simp [scan, List.foldl_append]

theorem foldl_scan_quiet (b : List Event) (s : Scan) (h : ∀ e ∈ b, e.isExecStream = false) :
    b.foldl Scan.step s = { gaps := s.gaps, cur := s.cur.map (fun c => c ++ b) } := by
  induction b generalizing s with
  | nil => cases s with | mk g c => cases c <;> simp
  | cons e es ih =>
    have he := h e (List.mem_cons_self _ _)
    rw [List.foldl_cons, ih _ (fun x hx => h x (List.mem_cons_of_mem _ hx))]
    cases s with
    | mk g c => cases c <;> simp [Scan.step, he]

theorem scan_request (tr blk : List Event) (a b c : Bool)
    (h : ∀ e ∈ blk, e.isExecStream = false) :
    scan (tr ++ Event.execStream a b c :: blk) =
      { gaps := (scan tr).gaps ++ (scan tr).cur.toList, cur := some blk } := by
  rw [scan_append, List.foldl_cons, foldl_scan_quiet _ _ h]
  simp [Scan.step, Event.isExecStream]

theorem scan_quiet (tr blk : List Event) (h : ∀ e ∈ blk, e.isExecStream = false) :
    scan (tr ++ blk) = { gaps := (scan tr).gaps, cur := (scan tr).cur.map (fun c => c ++ blk) } := by
  rw [scan_append, foldl_scan_quiet _ _ h]

theorem settled_append (c b : List Event) (hc : Settled c) (hb : ∀ e ∈ b, e.isQuiet = true) :
    Settled (c ++ b) := by
  have hg : b.any Event.isGoListener = false := by
    rw [List.any_eq_false]
    intro e he
    have := hb e he
    simp [Event.isQuiet] at this
    simp [this.1.2]
  have hs : b.any Event.isSend = false := by
    rw [List.any_eq_false]
    intro e he
    have := hb e he
    simp [Event.isQuiet] at this
    simp [this.2]
  rcases hc with h | h
  · left
    simp only [Joined, Bool.and_eq_true, List.contains_eq_any_beq, List.any_append,
      Bool.or_eq_true] at h ⊢
    exact ⟨⟨⟨Or.inl h.1.1.1, Or.inl h.1.1.2⟩, Or.inl h.1.2⟩, Or.inl h.2⟩
  · right
    simp only [Abandoned, Bool.and_eq_true, List.contains_eq_any_beq, List.any_append,
      Bool.or_eq_true, hg, hs, Bool.or_false, Bool.not_eq_true'] at h ⊢
    exact ⟨⟨⟨Or.inl h.1.1.1, Or.inl h.1.1.2⟩, h.1.2⟩, h.2⟩

theorem isExecStream_of_quiet {b : List Event} (hb : ∀ e ∈ b, e.isQuiet = true) :
    ∀ e ∈ b, e.isExecStream = false := by
  intro e he
  have := hb e he
  simp [Event.isQuiet] at this
  exact this.1.1

theorem good_emit (d : Driver) (b : List Event) (hd : Good d) (hb : ∀ e ∈ b, e.isQuiet = true) :
    Good (d.emit b) := by
  unfold Good Driver.emit
  simp only []
  rw [scan_quiet _ _ (isExecStream_of_quiet hb)]
  refine ⟨hd.1, ?_⟩
  intro hx c hc
  simp only [Option.map_eq_some'] at hc
  obtain ⟨c0, hc0, rfl⟩ := hc
  exact settled_append c0 b (hd.2 hx c0 hc0) hb

theorem good_request (d : Driver) (blk : List Event) (a b c : Bool) (r : Nat) (x : Option Int)
    (hd : Good d) (hrun : d.exited = none) (hq : ∀ e ∈ blk, e.isExecStream = false)
    (hs : x = none → Settled blk) :
    Good { trace := d.trace ++ Event.execStream a b c :: blk, requests := r, exited := x } := by
  unfold Good
  simp only []
  rw [scan_request _ _ _ _ _ hq]
  refine ⟨?_, ?_⟩
  · intro g hg
    simp only [List.mem_append, Option.mem_toList, Option.mem_def] at hg
    rcases hg with hg | hg
    · exact hd.1 g hg
    · exact hd.2 hrun g hg
  · intro hx c0 hc0
    simp only [Option.some.injEq] at hc0
    subst hc0
    exact hs hx

theorem good_init : Good Driver.init := by
  refine ⟨?_, ?_⟩
  · intro g hg
    simp [Driver.init, scan] at hg
  · intro _ c hc
    simp [Driver.init, scan] at hc

theorem isExecStream_map_send (t : Text) : ∀ e ∈ t.map Event.send, e.isExecStream = false := by
  intro e he
  obtain ⟨c, _, rfl⟩ := List.mem_map.1 he
  rfl

theorem isExecStream_inJoin {tr : List Event} (h : ∀ ev ∈ tr, ev.inJoin = true) :
    ∀ e ∈ tr, e.isExecStream = false := by
  intro e he
  have := h e he
  cases e <;> simp_all [Event.inJoin, Event.isExecStream]

theorem joined_of_mem {g : List Event} (h1 : Event.goListener .value ∈ g)
    (h2 : Event.goListener .error ∈ g) (h3 : Event.wgDone .value ∈ g)
    (h4 : Event.wgDone .error ∈ g) : Joined g = true := by
  simp [Joined, h1, h2, h3, h4]

/-- Feeding and joining a freshly opened request keeps the driver invariant. -/
theorem good_feedAndJoin (w : World) (f : Flags) (s : Strategy) (pre : List Event) (text : Text)
    (d : Driver) (hd : Good d) (hrun : d.exited = none)
    (hpre : ∀ e ∈ pre, e.isExecStream = false) :
    Good (feedAndJoin w s d.requests text ((openRequest f d).emit pre)) := by
  have hj := inv_join s (w.sched d.requests) (w.engine d.requests text).values
    (w.engine d.requests text).errors
  have htr : (feedAndJoin w s d.requests text ((openRequest f d).emit pre)) =
      { trace := d.trace ++
          Event.execStream (f.debugLexer || f.verbose) (f.debugParser || f.verbose)
            (f.dump || f.verbose) ::
          (pre ++ text.map Event.send ++ [.closeInput] ++
            (join s (w.sched d.requests) (w.engine d.requests text).values
              (w.engine d.requests text).errors).trace),
        requests := d.requests + 1,
        exited := (join s (w.sched d.requests) (w.engine d.requests text).values
              (w.engine d.requests text).errors).exited } := by
    simp [feedAndJoin, openRequest, Driver.emit]
  rw [htr]
  apply good_request d _ _ _ _ _ _ hd hrun
  · intro e he
    simp only [List.mem_append, List.mem_singleton] at he
    rcases he with ((he | he) | he) | he
    · exact hpre e he
    · exact isExecStream_map_send text e he
    · subst he; rfl
    · exact isExecStream_inJoin hj.events e he
  · intro hx
    left
    obtain ⟨h1, h2, h3, h4, _⟩ := join_complete _ _ _ _ hx
    apply joined_of_mem <;> simp [h1, h2, h3, h4]

theorem good_execFile (w : World) (f : Flags) (path : Text) (d : Driver) (hd : Good d)
    (hrun : d.exited = none) : Good (execFile w f path d).1 := by
  cases h : w.openFile path with
  | error err =>
    rw [execFile_fail w f path d err h]
    apply good_request d _ _ _ _ _ _ hd hrun
    · intro e he
      simp only [List.mem_cons, List.mem_singleton, List.not_mem_nil, or_false] at he
      rcases he with rfl | rfl | rfl <;> rfl
    · intro _
      right
      simp [Abandoned, Event.isOpenFailure, Event.isGoListener, Event.isSend]
  | ok lines =>
    rw [execFile_ok w f path d lines h]
    apply good_feedAndJoin w f _ _ _ d hd hrun
    intro e he
    simp only [List.mem_singleton] at he
    subst he
    rfl

theorem good_dispatch (w : World) (f : Flags) (text : Text) (d : Driver) (hd : Good d)
    (hrun : d.exited = none) : Good (dispatch w f text d).1 := by
  rcases dispatch_cases text with h | ⟨h1, h⟩ | h | ⟨h1, h2, h3, h⟩ | ⟨h1, h2, h3, h⟩
  · rw [dispatch_dump w f text d h]
    exact good_emit d _ hd (by simp [Event.isQuiet, Event.isExecStream, Event.isGoListener, Event.isSend])
  · rw [dispatch_clear w f text d h1 h]
    exact good_emit d _ hd (by simp [Event.isQuiet, Event.isExecStream, Event.isGoListener, Event.isSend])
  · rw [dispatch_exit w f text d h]
    exact hd
  · rw [dispatch_load w f text d h1 h2 h3 h]
    have hg := good_execFile w f (trim (text.drop 5) [' ', '\t', '\n']) d hd hrun
    simp only []
    split_ifs
    · exact hg
    · exact good_emit _ _ hg
        (by simp [Event.isQuiet, Event.isExecStream, Event.isGoListener, Event.isSend])
  · rw [dispatch_default w f text d h1 h2 h3 h]
    have := good_feedAndJoin w f .repl [] text d hd hrun (by simp)
    simpa [Driver.emit] using this

theorem good_exit (d : Driver) (b : List Event) (c : Int) (hd : Good d)
    (hb : ∀ e ∈ b, e.isQuiet = true) :
    Good { trace := d.trace ++ b, requests := d.requests, exited := some c } := by
  have h := good_emit d b hd hb
  refine ⟨h.1, ?_⟩
  intro hx
  cases hx

theorem good_replLoop (w : World) (f : Flags) (lines : List Text) (last : Text) (d : Driver)
    (hd : Good d) (hrun : d.exited = none) : Good (replLoop w f lines last d) := by
  induction lines generalizing d with
  | nil =>
    rw [replLoop_nil]
    exact good_exit d _ _ hd
      (by simp [Event.isQuiet, Event.isExecStream, Event.isGoListener, Event.isSend, prompt])
  | cons t ts ih =>
    cases h : hasPrefix t exitDirective with
    | true =>
      rw [replLoop_exit w f t ts last d hrun h]
      exact good_exit d _ _ hd
        (by simp [Event.isQuiet, Event.isExecStream, Event.isGoListener, Event.isSend, prompt])
    | false =>
      rw [replLoop_continue w f t ts last d hrun h]
      have hq : Good (d.emit [prompt, .readString t true]) :=
        good_emit d _ hd
          (by simp [Event.isQuiet, Event.isExecStream, Event.isGoListener, Event.isSend, prompt])
      exact ih _ (good_dispatch w f t _ hq hrun) (dispatch_running w f t _ hrun)

theorem good_runFiles (w : World) (f : Flags) (files : List Text) (d : Driver)
    (hd : Good d) (hrun : d.exited = none) : Good (runFiles w f files d) := by
  induction files generalizing d with
  | nil => exact hd
  | cons p ps ih =>
    have hx := execFile_running w f p d hrun
    unfold runFiles
    simp only [hx, Option.isSome_none, Bool.false_eq_true, if_false]
    exact ih _ (good_execFile w f p d hd hrun) hx

/-- C3, amended.  In every run of the driver, in any mode and under every interleaving,
between any two consecutive calls of `ctx.ExecStream` the earlier request has either
been joined (both listeners were started and both have signalled completion) or it was
opened by `execFile` for a path that then failed to open: in that case its input has been
closed, nothing was sent to it and no listener was started for it. -/
theorem requests_settled_before_next (w : World) (f : Flags) :
    ∀ g ∈ gaps (main w f).trace, Joined g = true ∨ Abandoned g = true := by
  have key : ∀ d : Driver, Good d → ∀ g ∈ gaps d.finish.trace,
      Joined g = true ∨ Abandoned g = true := fun d hd g hg => hd.1 g hg
  unfold main
  split
  · intro g hg
    simp [gaps, scan, Scan.step, Event.isExecStream] at hg
  · intro g hg
    simp [gaps, scan, Scan.step, Event.isExecStream] at hg
  · exact key _ (good_replLoop w f _ _ _ good_init rfl)
  · apply key
    have := good_feedAndJoin w f .eval [] f.eval Driver.init good_init rfl (by simp)
    simpa [Driver.emit] using this
  · exact key _ (good_runFiles w f _ _ good_init rfl)
  · apply key
    have := good_feedAndJoin w f .stdin [] w.stdin Driver.init good_init rfl (by simp)
    simpa [Driver.emit] using this

/-- C3 as stated fails in file mode for `-input m -input a` when `m` cannot be opened:
the request opened for `m` is never joined, no listener is started for it, and the next
call of `ctx.ExecStream` follows. -/
theorem missing_file_request_not_joined :
    opened (main exampleWorld filesFlags).trace = 2 ∧
      (gaps (main exampleWorld filesFlags).trace).length = 1 ∧
      ∀ g ∈ gaps (main exampleWorld filesFlags).trace,
        Joined g = false ∧ g.any Event.isGoListener = false := by
  decide

theorem requests_settled_before_next_witness :
    [Event.openFile ['m'] false,
      Event.logSafeErr 40 "could not open m for execution:\n\t-> no such file",
      Event.closeInput] ∈ gaps (main exampleWorld filesFlags).trace ∧
    (Joined [Event.openFile ['m'] false,
        Event.logSafeErr 40 "could not open m for execution:\n\t-> no such file",
        Event.closeInput] = true ∨
      Abandoned [Event.openFile ['m'] false,
        Event.logSafeErr 40 "could not open m for execution:\n\t-> no such file",
        Event.closeInput] = true) :=
  ⟨by decide, requests_settled_before_next exampleWorld filesFlags _ (by decide)⟩

end Ink
